import Mathlib

/-!
Shallow embedding of the order / cart / review / reporting core of the
aibuytech e-commerce backend, together with proofs checking the
natural-language specification against it.

Conventions of the embedding:
* Mongo documents become Lean structures; collections become `List`s.
* Monetary amounts and similarity scores are `ℚ` (the source computes with
  JS numbers; the spec-level arithmetic is exact).
* Stock counters are `ℤ` (Mongo `$inc` semantics, no clamping).
* Each `throw new AppError(...)` site becomes a constructor of `Err`.
* `async` methods become pure functions; a method that mutates documents
  returns the updated documents.  Every throw in the source happens before
  any write, so error branches return the input state unchanged.
-/

namespace AiBuyTech

abbrev ProductId := Nat
abbrev UserId := Nat

/-- Order statuses, from the `z.enum` in the orders / admin DTOs. -/
inductive OrderStatus
  | pending
  | processing
  | shipped
  | delivered
  | cancelled
deriving DecidableEq, Repr

/-- Payment methods, from the `z.enum` in `createOrderSchema`. -/
inductive PaymentMethod
  | cod
  | credit_card
  | momo
  | vnpay
deriving DecidableEq, Repr

/-- Payment statuses, from the Order mongoose schema. -/
inductive PaymentStatus
  | pending
  | completed
  | failed
deriving DecidableEq, Repr

/-- One constructor per `AppError` throw site relevant to the claims. -/
inductive Err
  | productNotFound (pid : ProductId)
  | cartEmpty
  | insufficientStock (name : String) (available : ℤ)
  | cartNotFound
  | orderNotFound
  | cannotUpdateStatus (current : OrderStatus)
  | cannotCancelStatus (current : OrderStatus)
  | cannotUpdateCancelledOrder
  | reviewNotAllowed
  | duplicateReview
  | reviewNotFound
  | forbidden
deriving DecidableEq, Repr

/-- An embedded review on a product (`IReview`). -/
structure Review where
  id : Nat
  user : UserId
  rating : ℚ
  content : String
  isAnonymous : Bool
deriving DecidableEq, Repr

/-- A product document (`IProduct`), with the fields the claims touch. -/
structure Product where
  id : ProductId
  name : String
  price : ℚ
  stock : ℤ
  isActive : Bool
  reviews : List Review
  averageRating : ℚ
  totalReviews : Nat
deriving DecidableEq, Repr

/-- A line item: (product ref, quantity, unit-price snapshot).  The cart
item and the order item have exactly these fields in the source. -/
structure LineItem where
  product : ProductId
  quantity : Nat
  price : ℚ
deriving DecidableEq, Repr

/-- A cart document (`ICart`). -/
structure Cart where
  user : UserId
  items : List LineItem
  totalAmount : ℚ
deriving DecidableEq, Repr

/-- An order document (`IOrder`), with the fields the claims touch.
`paidAt` is a timestamp, `none` until set. -/
structure Order where
  id : Nat
  user : UserId
  items : List LineItem
  subtotal : ℚ
  shippingFee : ℚ
  tax : ℚ
  totalAmount : ℚ
  paymentMethod : PaymentMethod
  paymentStatus : PaymentStatus
  status : OrderStatus
  paidAt : Option ℤ
  createdAt : ℤ
deriving DecidableEq, Repr

/-- `Product.findById` over the collection: first document with this id. -/
def findById (db : List Product) (pid : ProductId) : Option Product :=
  db.find? (fun p => p.id == pid)

/-- `Product.findByIdAndUpdate(pid, { $inc: { stock: delta } })`.  Ids are
unique in Mongo; mapping every matching document is equivalent there. -/
def updateStock (db : List Product) (pid : ProductId) (delta : ℤ) : List Product :=
  db.map (fun p => if p.id = pid then { p with stock := p.stock + delta } else p)

/-- The stock of the product `pid` in `db`, if present. -/
def stockOf (db : List Product) (pid : ProductId) : Option ℤ :=
  (findById db pid).map (fun p => p.stock)

namespace OrdersService

/-- The per-item validation loop of `OrdersService.createOrder` (lines
23-35): for each cart item re-fetch the product; 404 if missing; 400 with
the product name and available stock if `stock < quantity`.  Returns the
first error, if any. -/
def validateStock (db : List Product) : List LineItem → Option Err
  | [] => none
  | it :: rest =>
    match findById db it.product with
    | none => some (Err.productNotFound it.product)
    | some p =>
      if p.stock < (it.quantity : ℤ) then
        some (Err.insufficientStock p.name p.stock)
      else validateStock db rest

/-- The stock-decrement loop of `createOrder` (lines 69-73). -/
def decrementStocks (db : List Product) (items : List LineItem) : List Product :=
  items.foldl (fun d it => updateStock d it.product (-(it.quantity : ℤ))) db

/-- The stock-restore loop of `cancelOrder` (lines 207-211). -/
def restoreStocks (db : List Product) (items : List LineItem) : List Product :=
  items.foldl (fun d it => updateStock d it.product (it.quantity : ℤ)) db

/-- `OrdersService.createOrder`.  Takes the product collection and the
user's cart (found by `Cart.findOne({user})`), plus the generated order id
and current time; returns the result together with the product collection
and the cart afterwards (unchanged when an error is thrown, since every
throw in the source precedes every write). -/
def createOrder (db : List Product) (cart? : Option Cart) (userId : UserId)
    (paymentMethod : PaymentMethod) (oid : Nat) (now : ℤ) :
    Except Err Order × List Product × Option Cart :=
  match cart? with
  | none => (Except.error Err.cartEmpty, db, cart?)
  | some cart =>
    if cart.items.length = 0 then (Except.error Err.cartEmpty, db, cart?)
    else
      match validateStock db cart.items with
      | some e => (Except.error e, db, cart?)
      | none =>
        let subtotal := (cart.items.map (fun it => it.price * (it.quantity : ℚ))).sum
        let shippingFee : ℚ := 30000
        let tax := subtotal * (1 / 10)
        let totalAmount := subtotal + shippingFee + tax
        let order : Order :=
          { id := oid
            user := userId
            items := cart.items.map (fun it => ⟨it.product, it.quantity, it.price⟩)
            subtotal := subtotal
            shippingFee := shippingFee
            tax := tax
            totalAmount := totalAmount
            paymentMethod := paymentMethod
            paymentStatus := PaymentStatus.pending
            status := OrderStatus.pending
            paidAt := none
            createdAt := now }
        let db2 := decrementStocks db cart.items
        (Except.ok order, db2, some { cart with items := [], totalAmount := 0 })

/-- `OrdersService.updateOrderStatus` (lines 149-183), acting on the order
found by `Order.findById`: rejects when the current status is `delivered`
or `cancelled`; otherwise sets the requested status, and when the new
status is `delivered` and the payment method is `cod` additionally sets
`paymentStatus := completed` and `paidAt := now`. -/
def updateOrderStatus (order : Order) (status : OrderStatus) (now : ℤ) :
    Except Err Order :=
  if order.status = OrderStatus.delivered ∨ order.status = OrderStatus.cancelled then
    Except.error (Err.cannotUpdateStatus order.status)
  else
    let o1 := { order with status := status }
    if status = OrderStatus.delivered ∧ order.paymentMethod = PaymentMethod.cod then
      Except.ok { o1 with paymentStatus := PaymentStatus.completed, paidAt := some now }
    else
      Except.ok o1

/-- `OrdersService.cancelOrder` (lines 188-217), acting on the order found
by `Order.findOne({_id, user})`: rejects when the status is `shipped`,
`delivered` or `cancelled`; otherwise sets `cancelled` and restores the
stock of every line item. -/
def cancelOrder (db : List Product) (order : Order) :
    Except Err (Order × List Product) :=
  if order.status = OrderStatus.shipped ∨ order.status = OrderStatus.delivered ∨
      order.status = OrderStatus.cancelled then
    Except.error (Err.cannotCancelStatus order.status)
  else
    Except.ok ({ order with status := OrderStatus.cancelled },
      restoreStocks db order.items)

end OrdersService

namespace AdminService

/-- `AdminService.updateOrderStatus` (admin.service.ts lines 213-228):
rejects only when the current status is `cancelled`; otherwise sets the
requested status and nothing else. -/
def updateOrderStatus (order : Order) (status : OrderStatus) : Except Err Order :=
  if order.status = OrderStatus.cancelled then
    Except.error Err.cannotUpdateCancelledOrder
  else
    Except.ok { order with status := status }

end AdminService

/-- Modelled from the spec: the order-status transition table of spec §8,
"from `pending`, allowed next states are {`processing`,`cancelled`}; from
`processing`, {`shipped`,`cancelled`}; from `shipped`, {`delivered`}; from
`delivered`/`cancelled`, no transition is allowed".  Used only to compare
the spec's table with what the code enforces. -/
def specTransitionAllowed : OrderStatus → OrderStatus → Bool
  | OrderStatus.pending, OrderStatus.processing => true
  | OrderStatus.pending, OrderStatus.cancelled => true
  | OrderStatus.processing, OrderStatus.shipped => true
  | OrderStatus.processing, OrderStatus.cancelled => true
  | OrderStatus.shipped, OrderStatus.delivered => true
  | _, _ => false

/-- A sample order used to instantiate theorems on concrete inputs. -/
def baseOrder : Order :=
  { id := 1
    user := 7
    items := [⟨1, 2, 100⟩]
    subtotal := 200
    shippingFee := 30000
    tax := 20
    totalAmount := 30220
    paymentMethod := PaymentMethod.cod
    paymentStatus := PaymentStatus.pending
    status := OrderStatus.pending
    paidAt := none
    createdAt := 0 }

/-- C1, counterexample: the code does not enforce the spec's transition
table.  A `pending` order can be moved directly to `shipped` through
`OrdersService.updateOrderStatus`, which the table forbids; and an order
already `delivered` can still be moved by `AdminService.updateOrderStatus`,
which the table also forbids. -/
theorem c1_spec_table_counterexample :
    OrdersService.updateOrderStatus baseOrder OrderStatus.shipped 0 =
      Except.ok { baseOrder with status := OrderStatus.shipped } ∧
    specTransitionAllowed OrderStatus.pending OrderStatus.shipped = false ∧
    AdminService.updateOrderStatus { baseOrder with status := OrderStatus.delivered }
        OrderStatus.processing =
      Except.ok { baseOrder with status := OrderStatus.processing } ∧
    specTransitionAllowed OrderStatus.delivered OrderStatus.processing = false := by
  refine ⟨?_, rfl, ?_, rfl⟩ <;> rfl

/-- C1 (amended): what the code actually enforces, over every
(current, requested) pair.  `OrdersService.updateOrderStatus` succeeds
exactly when the current status is neither `delivered` nor `cancelled`
(and then sets any requested status); `AdminService.updateOrderStatus`
succeeds exactly when the current status is not `cancelled`;
`OrdersService.cancelOrder` succeeds exactly from `pending` or
`processing`.  The failures are the InvalidTransition-class errors. -/
theorem c1_transitions_amended (order : Order) (req : OrderStatus)
    (db : List Product) (now : ℤ) :
    ((∃ o2, OrdersService.updateOrderStatus order req now = Except.ok o2 ∧
        o2.status = req) ↔
      (order.status ≠ OrderStatus.delivered ∧ order.status ≠ OrderStatus.cancelled)) ∧
    ((order.status = OrderStatus.delivered ∨ order.status = OrderStatus.cancelled) →
      OrdersService.updateOrderStatus order req now =
        Except.error (Err.cannotUpdateStatus order.status)) ∧
    ((∃ o2, AdminService.updateOrderStatus order req = Except.ok o2 ∧
        o2.status = req) ↔
      order.status ≠ OrderStatus.cancelled) ∧
    (order.status = OrderStatus.cancelled →
      AdminService.updateOrderStatus order req =
        Except.error Err.cannotUpdateCancelledOrder) ∧
    ((∃ o2 db2, OrdersService.cancelOrder db order = Except.ok (o2, db2) ∧
        o2.status = OrderStatus.cancelled) ↔
      (order.status = OrderStatus.pending ∨ order.status = OrderStatus.processing)) ∧
    ((order.status = OrderStatus.shipped ∨ order.status = OrderStatus.delivered ∨
        order.status = OrderStatus.cancelled) →
      OrdersService.cancelOrder db order =
        Except.error (Err.cannotCancelStatus order.status)) := by
  obtain ⟨oid, ou, oit, osu, osh, ota, otot, opm, ops, ost, opa, oca⟩ := order
  cases ost <;>
    simp [OrdersService.updateOrderStatus, AdminService.updateOrderStatus,
      OrdersService.cancelOrder] <;>
    by_cases h : req = OrderStatus.delivered ∧ opm = PaymentMethod.cod <;>
    simp [h]

/-- C1 witness: the amended characterization applied at a concrete input:
a cancelled order rejects an admin status update. -/
theorem c1_transitions_amended_witness :
    AdminService.updateOrderStatus { baseOrder with status := OrderStatus.cancelled }
        OrderStatus.pending =
      Except.error Err.cannotUpdateCancelledOrder :=
  (c1_transitions_amended { baseOrder with status := OrderStatus.cancelled }
    OrderStatus.pending [] 0).2.2.2.1 rfl

/-- Total quantity the line items of `items` order for the product `pid`
(as an integer, for stock arithmetic). -/
def qtyTotalZ (items : List LineItem) (pid : ProductId) : ℤ :=
  ((items.filter (fun it => it.product == pid)).map (fun it => (it.quantity : ℤ))).sum

theorem stockOf_updateStock (db : List Product) (pid : ProductId) (δ : ℤ)
    (q : ProductId) :
    stockOf (updateStock db pid δ) q =
      if q = pid then (stockOf db q).map (· + δ) else stockOf db q := by
  have hfind : findById (updateStock db pid δ) q =
      (findById db q).map
        (fun p => if p.id = pid then { p with stock := p.stock + δ } else p) := by
    rw [findById, updateStock, List.find?_map, findById]
    have hpred : ((fun p : Product => p.id == q) ∘ fun p =>
        if p.id = pid then { p with stock := p.stock + δ } else p) =
        (fun p : Product => p.id == q) := by
      funext p
      by_cases h : p.id = pid <;> simp [Function.comp, h]
    rw [hpred]
  rw [stockOf, hfind]
  by_cases h : q = pid
  · subst h
    cases hf : findById db q with
    | none => simp [stockOf, hf]
    | some p =>
      have hpq : p.id = q := by simpa using List.find?_some hf
      simp [stockOf, hf, hpq]
  · cases hf : findById db q with
    | none => simp [stockOf, hf, h]
    | some p =>
      have hpq : p.id = q := by simpa using List.find?_some hf
      have hp : ¬ p.id = pid := fun hc => h (hpq ▸ hc)
      simp [stockOf, hf, hp, h]

theorem stockOf_foldl_updateStock (f : LineItem → ℤ) (items : List LineItem)
    (db : List Product) (q : ProductId) :
    stockOf (items.foldl (fun d it => updateStock d it.product (f it)) db) q =
      (stockOf db q).map (· + ((items.filter (fun it => it.product == q)).map f).sum) := by
  induction items generalizing db with
  | nil => cases h : stockOf db q <;> simp [h]
  | cons it rest ih =>
    simp only [List.foldl_cons, ih, stockOf_updateStock]
    by_cases h : q = it.product
    · have hmem : (it.product == q) = true := by simp [h]
      simp only [if_pos h, List.filter_cons, hmem, if_true, List.map_cons,
        List.sum_cons]
      cases hs : stockOf db q with
      | none => simp
      | some s => simp [Option.map_map, Function.comp, add_assoc]
    · have hmem : (it.product == q) = false := by simp; exact fun hh => h hh.symm
      simp [if_neg h, List.filter_cons, hmem]

theorem stockOf_decrementStocks (db : List Product) (items : List LineItem)
    (q : ProductId) :
    stockOf (OrdersService.decrementStocks db items) q =
      (stockOf db q).map (· - qtyTotalZ items q) := by
  rw [OrdersService.decrementStocks, stockOf_foldl_updateStock]
  have hsum : ((items.filter (fun it => it.product == q)).map
      (fun it => -(it.quantity : ℤ))).sum = -(qtyTotalZ items q) := by
    rw [qtyTotalZ]
    generalize items.filter (fun it => it.product == q) = l
    induction l with
    | nil => simp
    | cons a t iht => simp [iht]; ring
  rw [hsum]
  cases hs : stockOf db q <;> simp [hs, sub_eq_add_neg]

theorem stockOf_restoreStocks (db : List Product) (items : List LineItem)
    (q : ProductId) :
    stockOf (OrdersService.restoreStocks db items) q =
      (stockOf db q).map (· + qtyTotalZ items q) := by
  rw [OrdersService.restoreStocks, stockOf_foldl_updateStock, qtyTotalZ]

/-- With at most one line item per product, the total ordered quantity for
the product of a cart item is that item's own quantity. -/
theorem qtyTotalZ_of_nodup (items : List LineItem) (it : LineItem)
    (h : (items.map (fun i => i.product)).Nodup) (hm : it ∈ items) :
    qtyTotalZ items it.product = (it.quantity : ℤ) := by
  induction items with
  | nil => cases hm
  | cons a rest ih =>
    simp only [List.map_cons, List.nodup_cons] at h
    rcases List.mem_cons.1 hm with heq | hmem
    · subst heq
      have hrest : rest.filter (fun x => x.product == it.product) = [] := by
        refine List.filter_eq_nil_iff.2 fun x hx => ?_
        simp only [beq_iff_eq]
        exact fun hcontra => h.1 (hcontra ▸ List.mem_map_of_mem (fun i => i.product) hx)
      simp [qtyTotalZ, List.filter_cons, hrest]
    · have hne : (a.product == it.product) = false := by
        simp only [beq_eq_false_iff_ne, ne_eq]
        exact fun hcontra =>
          h.1 (hcontra ▸ List.mem_map_of_mem (fun i => i.product) hmem)
      simpa [qtyTotalZ, List.filter_cons, hne] using ih h.2 hmem

/-- Structure eta: the order's item snapshot built by `createOrder` is the
cart's item list. -/
theorem map_lineItem_eta (items : List LineItem) :
    items.map (fun it => (⟨it.product, it.quantity, it.price⟩ : LineItem)) = items :=
  List.map_id items

/-- Inversion of a successful `createOrder`: the resulting product
collection is the decremented one and the order snapshots the cart. -/
theorem createOrder_ok_inv (db : List Product) (cart : Cart) (userId : UserId)
    (pm : PaymentMethod) (oid : Nat) (now : ℤ) (order : Order)
    (db1 : List Product) (cart1 : Option Cart)
    (hcreate : OrdersService.createOrder db (some cart) userId pm oid now =
      (Except.ok order, db1, cart1)) :
    db1 = OrdersService.decrementStocks db cart.items ∧
      order.items = cart.items ∧ order.status = OrderStatus.pending := by
  rw [OrdersService.createOrder] at hcreate
  by_cases h0 : cart.items.length = 0
  · simp [h0] at hcreate
  · rw [if_neg h0] at hcreate
    cases hv : OrdersService.validateStock db cart.items with
    | some e => rw [hv] at hcreate; simp at hcreate
    | none =>
      rw [hv] at hcreate
      simp only [Prod.mk.injEq, Except.ok.injEq] at hcreate
      obtain ⟨ho, hdb, hc⟩ := hcreate
      refine ⟨hdb.symm, ?_, ?_⟩
      · rw [← ho]
        exact map_lineItem_eta cart.items
      · rw [← ho]

/-- C2: a successful `createOrder` decrements each line item's product
stock by exactly the ordered quantity (stated per product id via
`qtyTotalZ`, and per line item under the cart's one-item-per-product
invariant), a subsequent successful `cancelOrder` restores exactly those
quantities, and the composition leaves every product's stock unchanged. -/
theorem c2_create_cancel_stock_roundtrip (db : List Product) (cart : Cart)
    (userId : UserId) (pm : PaymentMethod) (oid : Nat) (now : ℤ) (order : Order)
    (db1 : List Product) (cart1 : Option Cart)
    (hcreate : OrdersService.createOrder db (some cart) userId pm oid now =
      (Except.ok order, db1, cart1)) :
    (∀ pid, stockOf db1 pid = (stockOf db pid).map (· - qtyTotalZ cart.items pid)) ∧
    ((cart.items.map (fun i => i.product)).Nodup →
      ∀ it ∈ cart.items,
        stockOf db1 it.product = (stockOf db it.product).map (· - (it.quantity : ℤ))) ∧
    (∃ order2 db2, OrdersService.cancelOrder db1 order = Except.ok (order2, db2)) ∧
    (∀ order2 db2, OrdersService.cancelOrder db1 order = Except.ok (order2, db2) →
      (∀ pid, stockOf db2 pid = (stockOf db1 pid).map (· + qtyTotalZ cart.items pid)) ∧
      ∀ pid, stockOf db2 pid = stockOf db pid) := by
  obtain ⟨hdb, hitems, hstatus⟩ := createOrder_ok_inv db cart userId pm oid now
    order db1 cart1 hcreate
  subst hdb
  have hdec : ∀ pid, stockOf (OrdersService.decrementStocks db cart.items) pid =
      (stockOf db pid).map (· - qtyTotalZ cart.items pid) :=
    fun pid => stockOf_decrementStocks db cart.items pid
  refine ⟨hdec, ?_, ?_, ?_⟩
  · intro hnodup it hit
    rw [hdec it.product, qtyTotalZ_of_nodup cart.items it hnodup hit]
  · exact ⟨{ order with status := OrderStatus.cancelled },
      OrdersService.restoreStocks (OrdersService.decrementStocks db cart.items)
        order.items,
      by rw [OrdersService.cancelOrder, if_neg (by simp [hstatus])]⟩
  · intro order2 db2 hcancel
    rw [OrdersService.cancelOrder] at hcancel
    rw [if_neg (by simp [hstatus])] at hcancel
    simp only [Except.ok.injEq, Prod.mk.injEq] at hcancel
    obtain ⟨-, hdb2⟩ := hcancel
    subst hdb2
    rw [hitems]
    refine ⟨fun pid => stockOf_restoreStocks _ cart.items pid, fun pid => ?_⟩
    rw [stockOf_restoreStocks _ cart.items pid, hdec pid]
    cases hs : stockOf db pid <;> simp [hs]

/-- C2 witness: a concrete run.  One product with stock 5, a cart ordering
2 of it: after `createOrder` the stock is 3, after `cancelOrder` it is 5
again. -/
theorem c2_create_cancel_stock_roundtrip_witness :
    ∃ order2 db2,
      OrdersService.cancelOrder
        ((OrdersService.createOrder
          [{ id := 1, name := "P", price := 100, stock := 5, isActive := true,
             reviews := [], averageRating := 0, totalReviews := 0 }]
          (some { user := 7, items := [⟨1, 2, 100⟩], totalAmount := 200 })
          7 PaymentMethod.cod 1 0).2.1)
        ((OrdersService.createOrder
          [{ id := 1, name := "P", price := 100, stock := 5, isActive := true,
             reviews := [], averageRating := 0, totalReviews := 0 }]
          (some { user := 7, items := [⟨1, 2, 100⟩], totalAmount := 200 })
          7 PaymentMethod.cod 1 0).1.toOption.get (by rfl)) =
      Except.ok (order2, db2) :=
  (c2_create_cancel_stock_roundtrip
    [{ id := 1, name := "P", price := 100, stock := 5, isActive := true,
       reviews := [], averageRating := 0, totalReviews := 0 }]
    { user := 7, items := [⟨1, 2, 100⟩], totalAmount := 200 }
    7 PaymentMethod.cod 1 0 _ _ _ rfl).2.2.1

/-- Inversion of a successful `createOrder`, amounts part: the four money
fields are the computed totals, functions of the cart snapshot alone. -/
theorem createOrder_ok_amounts (db : List Product) (cart : Cart) (userId : UserId)
    (pm : PaymentMethod) (oid : Nat) (now : ℤ) (order : Order)
    (db1 : List Product) (cart1 : Option Cart)
    (hcreate : OrdersService.createOrder db (some cart) userId pm oid now =
      (Except.ok order, db1, cart1)) :
    order.subtotal = (cart.items.map (fun it => it.price * (it.quantity : ℚ))).sum ∧
      order.shippingFee = 30000 ∧
      order.tax = order.subtotal * (1 / 10) ∧
      order.totalAmount = order.subtotal + order.shippingFee + order.tax := by
  rw [OrdersService.createOrder] at hcreate
  by_cases h0 : cart.items.length = 0
  · simp [h0] at hcreate
  · rw [if_neg h0] at hcreate
    cases hv : OrdersService.validateStock db cart.items with
    | some e => rw [hv] at hcreate; simp at hcreate
    | none =>
      rw [hv] at hcreate
      simp only [Prod.mk.injEq, Except.ok.injEq] at hcreate
      obtain ⟨ho, -, -⟩ := hcreate
      refine ⟨?_, ?_, ?_, ?_⟩ <;> rw [← ho]

/-- A concrete product collection for witnesses: one product, stock 5. -/
def demoDb : List Product :=
  [{ id := 1, name := "P", price := 100, stock := 5, isActive := true,
     reviews := [], averageRating := 0, totalReviews := 0 }]

/-- A concrete cart for witnesses: 2 units of product 1 at snapshot
price 100. -/
def demoCart : Cart :=
  { user := 7, items := [⟨1, 2, 100⟩], totalAmount := 200 }

/-- C3: every successfully created order has
`subtotal = Σ snapshotPrice·qty`, the fixed shipping fee 30000,
`tax = subtotal/10` and `totalAmount = subtotal + shippingFee + tax`;
and the four amounts depend only on the cart snapshot: a second run from
the same cart against any other product collection yields the same
amounts. -/
theorem c3_order_amounts (db : List Product) (cart : Cart) (userId : UserId)
    (pm : PaymentMethod) (oid : Nat) (now : ℤ) (order : Order)
    (db1 : List Product) (cart1 : Option Cart)
    (hcreate : OrdersService.createOrder db (some cart) userId pm oid now =
      (Except.ok order, db1, cart1)) :
    order.subtotal = (cart.items.map (fun it => it.price * (it.quantity : ℚ))).sum ∧
    order.shippingFee = 30000 ∧
    order.tax = order.subtotal * (1 / 10) ∧
    order.totalAmount = order.subtotal + order.shippingFee + order.tax ∧
    (∀ (db' : List Product) (userId' : UserId) (pm' : PaymentMethod)
        (oid' : Nat) (now' : ℤ) (order' : Order) (db1' : List Product)
        (cart1' : Option Cart),
      OrdersService.createOrder db' (some cart) userId' pm' oid' now' =
        (Except.ok order', db1', cart1') →
      order'.subtotal = order.subtotal ∧ order'.shippingFee = order.shippingFee ∧
        order'.tax = order.tax ∧ order'.totalAmount = order.totalAmount) := by
  obtain ⟨h1, h2, h3, h4⟩ := createOrder_ok_amounts db cart userId pm oid now
    order db1 cart1 hcreate
  refine ⟨h1, h2, h3, h4, ?_⟩
  intro db' userId' pm' oid' now' order' db1' cart1' hcreate'
  obtain ⟨h1', h2', h3', h4'⟩ := createOrder_ok_amounts db' cart userId' pm' oid'
    now' order' db1' cart1' hcreate'
  refine ⟨h1'.trans h1.symm, h2'.trans h2.symm, ?_, ?_⟩
  · rw [h3', h3, h1', h1]
  · rw [h4', h4, h1', h1, h2', h2, h3', h3, h1', h1]

/-- C3 witness: the spec scenario — price 100, quantity 2 gives
subtotal 200, fee 30000, tax 20, total 30220; the theorem applied at this
concrete run yields the totalAmount equation. -/
theorem c3_order_amounts_witness :
    ((OrdersService.createOrder demoDb (some demoCart) 7 PaymentMethod.cod 1 0).1.toOption.get
        (by rfl)).totalAmount =
      ((OrdersService.createOrder demoDb (some demoCart) 7 PaymentMethod.cod 1 0).1.toOption.get
        (by rfl)).subtotal +
      ((OrdersService.createOrder demoDb (some demoCart) 7 PaymentMethod.cod 1 0).1.toOption.get
        (by rfl)).shippingFee +
      ((OrdersService.createOrder demoDb (some demoCart) 7 PaymentMethod.cod 1 0).1.toOption.get
        (by rfl)).tax :=
  (c3_order_amounts demoDb demoCart 7 PaymentMethod.cod 1 0 _ _ _ rfl).2.2.2.1

theorem validateStock_eq_none_iff (db : List Product) (items : List LineItem) :
    OrdersService.validateStock db items = none ↔
      ∀ it ∈ items, ∃ p, findById db it.product = some p ∧
        (it.quantity : ℤ) ≤ p.stock := by
  induction items with
  | nil => simp [OrdersService.validateStock]
  | cons it rest ih =>
    cases hf : findById db it.product with
    | none =>
      refine iff_of_false (by simp [OrdersService.validateStock, hf]) fun h => ?_
      obtain ⟨p, hp, -⟩ := h it (List.mem_cons_self it rest)
      rw [hf] at hp
      exact Option.noConfusion hp
    | some p =>
      by_cases hs : p.stock < (it.quantity : ℤ)
      · refine iff_of_false (by simp [OrdersService.validateStock, hf, hs])
          fun h => ?_
        obtain ⟨p', hp', hle⟩ := h it (List.mem_cons_self it rest)
        rw [hf] at hp'
        obtain rfl := Option.some.inj hp'
        exact absurd hs (not_lt.2 hle)
      · simp only [OrdersService.validateStock, hf, if_neg hs]
        rw [ih]
        constructor
        · intro h x hx
          rcases List.mem_cons.1 hx with rfl | hmem
          · exact ⟨p, hf, not_lt.1 hs⟩
          · exact h x hmem
        · intro h x hx
          exact h x (List.mem_cons_of_mem it hx)

theorem validateStock_some_cases (db : List Product) (items : List LineItem)
    (e : Err) (h : OrdersService.validateStock db items = some e) :
    (∃ it ∈ items, findById db it.product = none ∧
      e = Err.productNotFound it.product) ∨
    (∃ it ∈ items, ∃ p, findById db it.product = some p ∧
      p.stock < (it.quantity : ℤ) ∧ e = Err.insufficientStock p.name p.stock) := by
  induction items with
  | nil => simp [OrdersService.validateStock] at h
  | cons it rest ih =>
    rw [OrdersService.validateStock] at h
    cases hf : findById db it.product with
    | none =>
      simp only [hf] at h
      exact Or.inl ⟨it, List.mem_cons_self it rest, hf, (Option.some.inj h).symm⟩
    | some p =>
      simp only [hf] at h
      by_cases hs : p.stock < (it.quantity : ℤ)
      · rw [if_pos hs] at h
        exact Or.inr ⟨it, List.mem_cons_self it rest, p, hf, hs,
          (Option.some.inj h).symm⟩
      · rw [if_neg hs] at h
        rcases ih h with ⟨x, hx, h1, h2⟩ | ⟨x, hx, p', h1, h2, h3⟩
        · exact Or.inl ⟨x, List.mem_cons_of_mem it hx, h1, h2⟩
        · exact Or.inr ⟨x, List.mem_cons_of_mem it hx, p', h1, h2, h3⟩

theorem validateStock_insufficient_iff (db : List Product) (items : List LineItem)
    (hex : ∀ it ∈ items, ∃ p, findById db it.product = some p) :
    (∃ n a, OrdersService.validateStock db items =
        some (Err.insufficientStock n a)) ↔
      ∃ it ∈ items, ∃ p, findById db it.product = some p ∧
        p.stock < (it.quantity : ℤ) := by
  induction items with
  | nil => simp [OrdersService.validateStock]
  | cons it rest ih =>
    obtain ⟨p, hp⟩ := hex it (List.mem_cons_self it rest)
    rw [OrdersService.validateStock]
    simp only [hp]
    by_cases hs : p.stock < (it.quantity : ℤ)
    · rw [if_pos hs]
      exact iff_of_true ⟨p.name, p.stock, rfl⟩
        ⟨it, List.mem_cons_self it rest, p, hp, hs⟩
    · rw [if_neg hs,
        ih fun x hx => hex x (List.mem_cons_of_mem it hx)]
      constructor
      · rintro ⟨x, hx, p', hp', hs'⟩
        exact ⟨x, List.mem_cons_of_mem it hx, p', hp', hs'⟩
      · rintro ⟨x, hx, p', hp', hs'⟩
        rcases List.mem_cons.1 hx with rfl | hmem
        · rw [hp] at hp'
          obtain rfl := Option.some.inj hp'
          exact absurd hs' hs
        · exact ⟨x, hmem, p', hp', hs'⟩

/-- A cart whose first line item references a missing product while the
second line item's product exists but has insufficient stock. -/
def c4cart : Cart :=
  { user := 7, items := [⟨1, 1, 1⟩, ⟨2, 1, 1⟩], totalAmount := 2 }

/-- A product collection containing only product 2, with stock 0. -/
def c4db : List Product :=
  [{ id := 2, name := "Q", price := 1, stock := 0, isActive := true,
     reviews := [], averageRating := 0, totalReviews := 0 }]

/-- C4, counterexample: when a line item's product is missing,
`createOrder` fails with the 404 product-not-found error even though
another line item's product has stock strictly below its quantity — so
"otherwise fails with InsufficientStock exactly when some line item's
product has stock strictly less than that item's quantity" does not hold
as stated. -/
theorem c4_insufficient_iff_counterexample :
    (OrdersService.createOrder c4db (some c4cart) 7 PaymentMethod.cod 1 0).1 =
      Except.error (Err.productNotFound 1) ∧
    (∃ it ∈ c4cart.items, ∃ p, findById c4db it.product = some p ∧
      p.stock < (it.quantity : ℤ)) ∧
    ∀ e, (OrdersService.createOrder c4db (some c4cart) 7 PaymentMethod.cod 1 0).1 =
        Except.error e → e = Err.productNotFound 1 := by
  refine ⟨rfl, ⟨⟨2, 1, 1⟩, by decide, ?_⟩, ?_⟩
  · exact ⟨⟨2, "Q", 1, 0, true, [], 0, 0⟩, by decide⟩
  · intro e h
    have h0 : (OrdersService.createOrder c4db (some c4cart) 7
        PaymentMethod.cod 1 0).1 = Except.error (Err.productNotFound 1) := rfl
    exact (Except.error.inj (h0.symm.trans h)).symm

/-- C4 (amended): `createOrder` fails with the empty-cart error exactly
when the cart is absent or has no items; when every line item's product
exists, it fails with an insufficient-stock error exactly when some line
item's product has stock strictly below that item's quantity; an
insufficient-stock error always names an offending product and its
available count; a product-not-found error always identifies a line item
whose product is absent; it succeeds exactly when the cart is present,
non-empty and every line item's product exists with sufficient stock; and
in every failure case the product collection and the cart are returned
unchanged. -/
theorem c4_createOrder_failures_amended (db : List Product) (cart? : Option Cart)
    (userId : UserId) (pm : PaymentMethod) (oid : Nat) (now : ℤ) :
    ((OrdersService.createOrder db cart? userId pm oid now).1 =
        Except.error Err.cartEmpty ↔
      cart? = none ∨ ∃ c, cart? = some c ∧ c.items = []) ∧
    (∀ c, cart? = some c →
      (∀ it ∈ c.items, ∃ p, findById db it.product = some p) →
      ((∃ n a, (OrdersService.createOrder db cart? userId pm oid now).1 =
          Except.error (Err.insufficientStock n a)) ↔
        ∃ it ∈ c.items, ∃ p, findById db it.product = some p ∧
          p.stock < (it.quantity : ℤ))) ∧
    (∀ c n a, cart? = some c →
      (OrdersService.createOrder db cart? userId pm oid now).1 =
        Except.error (Err.insufficientStock n a) →
      ∃ it ∈ c.items, ∃ p, findById db it.product = some p ∧ p.name = n ∧
        p.stock = a ∧ p.stock < (it.quantity : ℤ)) ∧
    (∀ c pid, cart? = some c →
      (OrdersService.createOrder db cart? userId pm oid now).1 =
        Except.error (Err.productNotFound pid) →
      ∃ it ∈ c.items, it.product = pid ∧ findById db pid = none) ∧
    ((∃ o, (OrdersService.createOrder db cart? userId pm oid now).1 =
        Except.ok o) ↔
      ∃ c, cart? = some c ∧ c.items ≠ [] ∧ ∀ it ∈ c.items,
        ∃ p, findById db it.product = some p ∧ (it.quantity : ℤ) ≤ p.stock) ∧
    (∀ e, (OrdersService.createOrder db cart? userId pm oid now).1 =
        Except.error e →
      (OrdersService.createOrder db cart? userId pm oid now).2.1 = db ∧
      (OrdersService.createOrder db cart? userId pm oid now).2.2 = cart?) := by
  cases cart? with
  | none =>
    refine ⟨?_, ?_, ?_, ?_, ?_, ?_⟩ <;> simp [OrdersService.createOrder]
  | some c =>
    by_cases h0 : c.items = []
    · have hl : c.items.length = 0 := by simp [h0]
      refine ⟨?_, ?_, ?_, ?_, ?_, ?_⟩ <;>
        simp [OrdersService.createOrder, hl, h0]
    · have hl : ¬ c.items.length = 0 :=
        fun h => h0 (List.length_eq_zero.1 h)
      cases hv : OrdersService.validateStock db c.items with
      | some e =>
        have hrun : OrdersService.createOrder db (some c) userId pm oid now =
            (Except.error e, db, some c) := by
          rw [OrdersService.createOrder, if_neg hl, hv]
        refine ⟨?_, ?_, ?_, ?_, ?_, ?_⟩
        · rw [hrun]
          refine iff_of_false (fun h => ?_) (by simp [h0])
          obtain rfl := Except.error.inj h
          rcases validateStock_some_cases db c.items _ hv with
            ⟨x, -, -, h2⟩ | ⟨x, -, p, -, -, h2⟩ <;> exact Err.noConfusion h2
        · intro c2 hc2 hex
          obtain rfl := Option.some.inj hc2
          rw [hrun]
          rw [← validateStock_insufficient_iff db c.items hex]
          constructor
          · rintro ⟨n, a, hna⟩
            exact ⟨n, a, hv.trans (congrArg some (Except.error.inj hna))⟩
          · rintro ⟨n, a, hna⟩
            obtain rfl := Option.some.inj (hv.symm.trans hna)
            exact ⟨n, a, rfl⟩
        · intro c2 n a hc2 hna
          obtain rfl := Option.some.inj hc2
          rw [hrun] at hna
          obtain rfl := Except.error.inj hna
          rcases validateStock_some_cases db c.items _ hv with
            ⟨x, -, -, h2⟩ | ⟨x, hx, p, h1, h2, h3⟩
          · exact Err.noConfusion h2
          · obtain ⟨rfl, rfl⟩ : p.name = n ∧ p.stock = a := by
              cases h3
              exact ⟨rfl, rfl⟩
            exact ⟨x, hx, p, h1, rfl, rfl, h2⟩
        · intro c2 pid hc2 hpid
          obtain rfl := Option.some.inj hc2
          rw [hrun] at hpid
          obtain rfl := Except.error.inj hpid
          rcases validateStock_some_cases db c.items _ hv with
            ⟨x, hx, h1, h2⟩ | ⟨x, -, p, -, -, h2⟩
          · obtain rfl : x.product = pid := by
              cases h2
              rfl
            exact ⟨x, hx, rfl, h1⟩
          · exact Err.noConfusion h2
        · rw [hrun]
          refine iff_of_false (by simp) ?_
          rintro ⟨c2, hc2, -, hall2⟩
          obtain rfl := Option.some.inj hc2
          have hnone := (validateStock_eq_none_iff db c.items).2 hall2
          rw [hv] at hnone
          exact Option.noConfusion hnone
        · intro e2 he2
          rw [hrun]
          exact ⟨rfl, rfl⟩
      | none =>
        have hall := (validateStock_eq_none_iff db c.items).1 hv
        have hrun : (OrdersService.createOrder db (some c) userId pm oid now).1 =
            Except.ok
              { id := oid, user := userId
                items := c.items.map (fun it => ⟨it.product, it.quantity, it.price⟩)
                subtotal := (c.items.map (fun it => it.price * (it.quantity : ℚ))).sum
                shippingFee := 30000
                tax := (c.items.map (fun it => it.price * (it.quantity : ℚ))).sum * (1 / 10)
                totalAmount := (c.items.map (fun it => it.price * (it.quantity : ℚ))).sum +
                  30000 + (c.items.map (fun it => it.price * (it.quantity : ℚ))).sum * (1 / 10)
                paymentMethod := pm, paymentStatus := PaymentStatus.pending
                status := OrderStatus.pending, paidAt := none, createdAt := now } := by
          rw [OrdersService.createOrder, if_neg hl, hv]
        refine ⟨?_, ?_, ?_, ?_, ?_, ?_⟩
        · rw [hrun]
          refine iff_of_false (by simp) ?_
          rintro (h | ⟨c2, hc2, hc2e⟩)
          · exact Option.noConfusion h
          · obtain rfl := Option.some.inj hc2
            exact h0 hc2e
        · intro c2 hc2 hex
          obtain rfl := Option.some.inj hc2
          rw [hrun]
          refine iff_of_false (by simp) ?_
          rintro ⟨x, hx, p, hp, hps⟩
          obtain ⟨p', hp', hle⟩ := hall x hx
          obtain rfl := Option.some.inj (hp.symm.trans hp')
          exact absurd hps (not_lt.2 hle)
        · intro c2 n a hc2 hna
          rw [hrun] at hna
          exact Except.noConfusion hna
        · intro c2 pid hc2 hpid
          rw [hrun] at hpid
          exact Except.noConfusion hpid
        · rw [hrun]
          exact iff_of_true ⟨_, rfl⟩ ⟨c, rfl, h0, hall⟩
        · intro e2 he2
          rw [hrun] at he2
          exact Except.noConfusion he2

/-- C4 witness: the amended characterization applied at a concrete input:
with no cart, `createOrder` fails with the empty-cart error. -/
theorem c4_createOrder_failures_amended_witness :
    (OrdersService.createOrder demoDb none 7 PaymentMethod.cod 1 0).1 =
      Except.error Err.cartEmpty :=
  (c4_createOrder_failures_amended demoDb none 7 PaymentMethod.cod 1 0).1.mpr
    (Or.inl rfl)

/-- C8, counterexample: `AdminService.updateOrderStatus` moving a
cash-on-delivery order to `delivered` leaves `paymentStatus` at `pending`
and records no paid timestamp — the claimed payment side effect happens
only in `OrdersService.updateOrderStatus`. -/
theorem c8_admin_payment_side_effect_counterexample :
    AdminService.updateOrderStatus { baseOrder with status := OrderStatus.processing }
        OrderStatus.delivered =
      Except.ok { baseOrder with status := OrderStatus.delivered } ∧
    ({ baseOrder with status := OrderStatus.delivered } : Order).paymentMethod =
      PaymentMethod.cod ∧
    ({ baseOrder with status := OrderStatus.delivered } : Order).paymentStatus =
      PaymentStatus.pending ∧
    ({ baseOrder with status := OrderStatus.delivered } : Order).paidAt = none :=
  ⟨rfl, rfl, rfl, rfl⟩

/-- C8 (amended): `OrdersService.updateOrderStatus` sets
`paymentStatus := completed` and records the paid timestamp exactly when
the new status is `delivered` and the payment method is cash-on-delivery,
touching no other field beyond `status`; `AdminService.updateOrderStatus`
changes the status field only, leaving `paymentStatus` and `paidAt`
unchanged in every combination. -/
theorem c8_delivered_cod_payment_amended (order : Order) (req : OrderStatus)
    (now : ℤ) :
    (∀ o2, OrdersService.updateOrderStatus order req now = Except.ok o2 →
      ((req = OrderStatus.delivered ∧ order.paymentMethod = PaymentMethod.cod) →
        o2.paymentStatus = PaymentStatus.completed ∧ o2.paidAt = some now) ∧
      (¬(req = OrderStatus.delivered ∧ order.paymentMethod = PaymentMethod.cod) →
        o2.paymentStatus = order.paymentStatus ∧ o2.paidAt = order.paidAt) ∧
      o2.id = order.id ∧ o2.user = order.user ∧ o2.items = order.items ∧
      o2.subtotal = order.subtotal ∧ o2.shippingFee = order.shippingFee ∧
      o2.tax = order.tax ∧ o2.totalAmount = order.totalAmount ∧
      o2.paymentMethod = order.paymentMethod ∧ o2.createdAt = order.createdAt ∧
      o2.status = req) ∧
    (∀ o2, AdminService.updateOrderStatus order req = Except.ok o2 →
      o2 = { order with status := req }) := by
  constructor
  · intro o2 h
    rw [OrdersService.updateOrderStatus] at h
    by_cases hterm : order.status = OrderStatus.delivered ∨
        order.status = OrderStatus.cancelled
    · rw [if_pos hterm] at h
      exact Except.noConfusion h
    · rw [if_neg hterm] at h
      by_cases hcod : req = OrderStatus.delivered ∧
          order.paymentMethod = PaymentMethod.cod
      · rw [if_pos hcod] at h
        obtain rfl := Except.ok.inj h
        exact ⟨fun _ => ⟨rfl, rfl⟩, fun hc => absurd hcod hc, rfl, rfl, rfl, rfl,
          rfl, rfl, rfl, rfl, rfl, rfl⟩
      · rw [if_neg hcod] at h
        obtain rfl := Except.ok.inj h
        exact ⟨fun hc => absurd hc hcod, fun _ => ⟨rfl, rfl⟩, rfl, rfl, rfl, rfl,
          rfl, rfl, rfl, rfl, rfl, rfl⟩
  · intro o2 h
    rw [AdminService.updateOrderStatus] at h
    by_cases hc : order.status = OrderStatus.cancelled
    · rw [if_pos hc] at h
      exact Except.noConfusion h
    · rw [if_neg hc] at h
      exact (Except.ok.inj h).symm

/-- C8 witness: the amended statement applied at a concrete input: the
user-facing service moving a `processing` COD order to `delivered` marks
it paid at the given time. -/
theorem c8_delivered_cod_payment_amended_witness :
    ∃ o2, OrdersService.updateOrderStatus
        { baseOrder with status := OrderStatus.processing }
        OrderStatus.delivered 5 = Except.ok o2 ∧
      o2.paymentStatus = PaymentStatus.completed ∧ o2.paidAt = some 5 :=
  ⟨⟨1, 7, [⟨1, 2, 100⟩], 200, 30000, 20, 30220, PaymentMethod.cod,
      PaymentStatus.completed, OrderStatus.delivered, some 5, 0⟩, rfl,
    ((c8_delivered_cod_payment_amended
        { baseOrder with status := OrderStatus.processing }
        OrderStatus.delivered 5).1 _ rfl).1 ⟨rfl, rfl⟩⟩

namespace CartService

/-- The find-or-update-or-push step of `CartService.addToCart` (lines
50-74): the first line item for the product accumulates the quantity
(re-checking stock against the accumulated quantity and refreshing the
price snapshot); when none exists a new line item is pushed at the end. -/
def addToItems (product : Product) (quantity : Nat) :
    List LineItem → Except Err (List LineItem)
  | [] => Except.ok [⟨product.id, quantity, product.price⟩]
  | it :: rest =>
    if it.product = product.id then
      let newQuantity := it.quantity + quantity
      if product.stock < (newQuantity : ℤ) then
        Except.error (Err.insufficientStock product.name product.stock)
      else
        Except.ok ({ it with quantity := newQuantity, price := product.price } :: rest)
    else
      match addToItems product quantity rest with
      | Except.error e => Except.error e
      | Except.ok rest2 => Except.ok (it :: rest2)

/-- `CartService.addToCart` (lines 23-82): 404 when the product is
missing; insufficient-stock error when `stock < quantity`; otherwise
upsert the line item (the lazily-created empty cart is the caller's
`cart` argument). -/
def addToCart (db : List Product) (cart : Cart) (productId : ProductId)
    (quantity : Nat) : Except Err Cart :=
  match findById db productId with
  | none => Except.error (Err.productNotFound productId)
  | some product =>
    if product.stock < (quantity : ℤ) then
      Except.error (Err.insufficientStock product.name product.stock)
    else
      match addToItems product quantity cart.items with
      | Except.error e => Except.error e
      | Except.ok items2 => Except.ok { cart with items := items2 }

/-- `CartService.removeFromCart` (lines 139-155): drop every line item of
the product, whatever its quantity. -/
def removeFromCart (cart : Cart) (productId : ProductId) : Cart :=
  { cart with items := cart.items.filter (fun it => !(it.product == productId)) }

/-- A sequence of `addToCart` calls; a failed call leaves the cart as it
was (the service throws before saving). -/
def runAdds (db : List Product) : List (ProductId × Nat) → Cart → Cart
  | [], cart => cart
  | (pid, qty) :: rest, cart =>
    runAdds db rest
      (match addToCart db cart pid qty with
       | Except.ok cart2 => cart2
       | Except.error _ => cart)

end CartService

theorem addToItems_products (product : Product) (qty : Nat)
    (items items2 : List LineItem)
    (h : CartService.addToItems product qty items = Except.ok items2) :
    items2.map (fun i => i.product) = items.map (fun i => i.product) ∨
      (items2.map (fun i => i.product) =
          items.map (fun i => i.product) ++ [product.id] ∧
        product.id ∉ items.map (fun i => i.product)) := by
  induction items generalizing items2 with
  | nil =>
    obtain rfl := Except.ok.inj h.symm
    exact Or.inr ⟨rfl, by simp⟩
  | cons it rest ih =>
    rw [CartService.addToItems] at h
    by_cases hpid : it.product = product.id
    · rw [if_pos hpid] at h
      by_cases hs : product.stock < ((it.quantity + qty : Nat) : ℤ)
      · rw [if_pos hs] at h
        exact Except.noConfusion h
      · rw [if_neg hs] at h
        obtain rfl := Except.ok.inj h.symm
        exact Or.inl (by simp)
    · rw [if_neg hpid] at h
      cases hrec : CartService.addToItems product qty rest with
      | error e => rw [hrec] at h; exact Except.noConfusion h
      | ok rest2 =>
        rw [hrec] at h
        obtain rfl := Except.ok.inj h.symm
        rcases ih rest2 hrec with heq | ⟨heq, hnot⟩
        · exact Or.inl (by simp [heq])
        · refine Or.inr ⟨by simp [heq], ?_⟩
          simp only [List.map_cons, List.mem_cons]
          rintro (hcontra | hcontra)
          · exact hpid hcontra.symm
          · exact hnot hcontra

theorem addToItems_nodup (product : Product) (qty : Nat)
    (items items2 : List LineItem)
    (hnd : (items.map (fun i => i.product)).Nodup)
    (h : CartService.addToItems product qty items = Except.ok items2) :
    (items2.map (fun i => i.product)).Nodup := by
  rcases addToItems_products product qty items items2 h with heq | ⟨heq, hnot⟩
  · rw [heq]; exact hnd
  · rw [heq, List.nodup_append]
    exact ⟨hnd, List.nodup_singleton _, fun x hx hx2 =>
      hnot ((List.mem_singleton.1 hx2) ▸ hx)⟩

theorem addToCart_nodup (db : List Product) (cart cart2 : Cart)
    (pid : ProductId) (qty : Nat)
    (hnd : (cart.items.map (fun i => i.product)).Nodup)
    (h : CartService.addToCart db cart pid qty = Except.ok cart2) :
    (cart2.items.map (fun i => i.product)).Nodup := by
  rw [CartService.addToCart] at h
  cases hf : findById db pid with
  | none => rw [hf] at h; exact Except.noConfusion h
  | some product =>
    simp only [hf] at h
    by_cases hs : product.stock < (qty : ℤ)
    · rw [if_pos hs] at h
      exact Except.noConfusion h
    · rw [if_neg hs] at h
      cases hadd : CartService.addToItems product qty cart.items with
      | error e =>
        rw [hadd] at h
        exact Except.noConfusion h
      | ok items2 =>
        simp only [hadd, Except.ok.injEq] at h
        obtain rfl := h.symm
        exact addToItems_nodup product qty cart.items items2 hnd hadd

theorem runAdds_nodup (db : List Product) (reqs : List (ProductId × Nat))
    (cart : Cart) (hnd : (cart.items.map (fun i => i.product)).Nodup) :
    (((CartService.runAdds db reqs cart).items.map (fun i => i.product)).Nodup) := by
  induction reqs generalizing cart with
  | nil => exact hnd
  | cons req rest ih =>
    obtain ⟨pid, qty⟩ := req
    rw [CartService.runAdds]
    cases hadd : CartService.addToCart db cart pid qty with
    | error e => exact ih cart hnd
    | ok cart2 => exact ih cart2 (addToCart_nodup db cart cart2 pid qty hnd hadd)

theorem addToItems_accumulate (product : Product) (qty : Nat)
    (items : List LineItem) (it0 : LineItem)
    (hfind : items.find? (fun it => it.product == product.id) = some it0) :
    (product.stock < ((it0.quantity + qty : Nat) : ℤ) →
      CartService.addToItems product qty items =
        Except.error (Err.insufficientStock product.name product.stock)) ∧
    (((it0.quantity + qty : Nat) : ℤ) ≤ product.stock →
      ∃ items2, CartService.addToItems product qty items = Except.ok items2 ∧
        items2.find? (fun it => it.product == product.id) =
          some ⟨it0.product, it0.quantity + qty, product.price⟩) := by
  induction items with
  | nil => exact Option.noConfusion hfind
  | cons it rest ih =>
    by_cases hpid : it.product = product.id
    · have hbeq : (it.product == product.id) = true := by simp [hpid]
      simp only [List.find?_cons, hbeq, cond_true] at hfind
      obtain rfl := Option.some.inj hfind
      constructor
      · intro hs
        rw [CartService.addToItems, if_pos hpid, if_pos hs]
      · intro hs
        refine ⟨({ it with quantity := it.quantity + qty, price := product.price } : LineItem) :: rest, ?_, ?_⟩
        · rw [CartService.addToItems, if_pos hpid, if_neg (not_lt.2 hs)]
        · simp [List.find?_cons, hbeq]
    · have hbeq : (it.product == product.id) = false := by
        simp only [beq_eq_false_iff_ne, ne_eq]
        exact hpid
      simp only [List.find?_cons, hbeq, cond_false] at hfind
      obtain ⟨h1, h2⟩ := ih hfind
      constructor
      · intro hs
        rw [CartService.addToItems, if_neg hpid, h1 hs]
      · intro hs
        obtain ⟨rest2, hrest2, hfind2⟩ := h2 hs
        refine ⟨it :: rest2, ?_, ?_⟩
        · rw [CartService.addToItems, if_neg hpid, hrest2]
        · simp only [List.find?_cons, hbeq, cond_false]
          exact hfind2

/-- C7: (1) after any sequence of `addToCart` calls starting from a cart
with at most one line item per product, the cart still has at most one
line item per product; (2) when the product already has a line item, a
second add accumulates into it — failing with the insufficient-stock
error when `stock < existingQty + qty`, and otherwise succeeding with the
single line item carrying the summed quantity and the refreshed price
snapshot; (3) `removeFromCart` leaves no line item of the removed
product, whatever its quantity was. -/
theorem c7_cart_upsert (db : List Product) :
    (∀ (reqs : List (ProductId × Nat)) (cart : Cart),
      (cart.items.map (fun i => i.product)).Nodup →
      (((CartService.runAdds db reqs cart).items.map (fun i => i.product)).Nodup)) ∧
    (∀ (cart : Cart) (pid : ProductId) (qty : Nat) (product : Product)
        (it0 : LineItem),
      findById db pid = some product →
      cart.items.find? (fun it => it.product == pid) = some it0 →
      ((product.stock < ((it0.quantity + qty : Nat) : ℤ) →
        CartService.addToCart db cart pid qty =
          Except.error (Err.insufficientStock product.name product.stock)) ∧
      (((it0.quantity + qty : Nat) : ℤ) ≤ product.stock →
        ∃ cart2, CartService.addToCart db cart pid qty = Except.ok cart2 ∧
          cart2.items.find? (fun it => it.product == pid) =
            some ⟨it0.product, it0.quantity + qty, product.price⟩))) ∧
    (∀ (cart : Cart) (pid : ProductId),
      ∀ it ∈ (CartService.removeFromCart cart pid).items, it.product ≠ pid) := by
  refine ⟨fun reqs cart hnd => runAdds_nodup db reqs cart hnd, ?_, ?_⟩
  · intro cart pid qty product it0 hp hfind
    have hpid : product.id = pid := by
      simpa using List.find?_some hp
    rw [← hpid] at hfind
    obtain ⟨h1, h2⟩ := addToItems_accumulate product qty cart.items it0 hfind
    constructor
    · intro hs
      simp only [CartService.addToCart, hp]
      by_cases hq : product.stock < (qty : ℤ)
      · rw [if_pos hq]
      · rw [if_neg hq, h1 hs]
    · intro hs
      have hq : ¬ product.stock < (qty : ℤ) := by
        push_cast at hs ⊢
        omega
      obtain ⟨items2, hitems2, hfind2⟩ := h2 hs
      refine ⟨{ cart with items := items2 }, ?_, ?_⟩
      · simp only [CartService.addToCart, hp]
        rw [if_neg hq, hitems2]
      · rw [← hpid]
        exact hfind2
  · intro cart pid it hit
    have := List.of_mem_filter hit
    simpa using this

/-- C7 witness: adding 2 more units of product 1 to a cart already
holding 2 accumulates to a single line item of quantity 4. -/
theorem c7_cart_upsert_witness :
    ∃ cart2, CartService.addToCart demoDb demoCart 1 2 = Except.ok cart2 ∧
      cart2.items.find? (fun it => it.product == 1) = some ⟨1, 4, 100⟩ :=
  (((c7_cart_upsert demoDb).2.1 demoCart 1 2
      ⟨1, "P", 100, 5, true, [], 0, 0⟩ ⟨1, 2, 100⟩ rfl rfl).2) (by decide)

/-- JS `Math.round(q * 10) / 10`: round to one decimal place, halves
rounded up (`Math.round(x) = ⌊x + 0.5⌋`). -/
def round1 (q : ℚ) : ℚ := ((⌊q * 10 + 1 / 2⌋ : ℤ) : ℚ) / 10

namespace ReviewsService

/-- `ReviewsService.checkUserPurchased` (part_017 lines 17-24):
`Order.findOne({user, 'items.product': productId, status: 'delivered'})`
finds a document iff such an order exists. -/
def checkUserPurchased (orders : List Order) (userId : UserId)
    (productId : ProductId) : Prop :=
  ∃ o ∈ orders, o.user = userId ∧ o.status = OrderStatus.delivered ∧
    ∃ it ∈ o.items, it.product = productId

instance (orders : List Order) (userId : UserId) (productId : ProductId) :
    Decidable (checkUserPurchased orders userId productId) :=
  inferInstanceAs (Decidable (∃ o ∈ orders, o.user = userId ∧
    o.status = OrderStatus.delivered ∧ ∃ it ∈ o.items, it.product = productId))

/-- `ReviewsService.updateProductRating` (part_017 lines 29-44): recompute
`totalReviews` and the one-decimal-rounded `averageRating` from the
embedded review list (both zero when the list is empty). -/
def updateProductRating (p : Product) : Product :=
  if p.reviews.length = 0 then
    { p with averageRating := 0, totalReviews := 0 }
  else
    { p with
      averageRating :=
        round1 (((p.reviews.map (fun r => r.rating)).sum) / (p.reviews.length : ℚ))
      totalReviews := p.reviews.length }

/-- `ReviewsService.createReview` (part_017 lines 49-100): 404 when the
product is missing; `REVIEW_NOT_ALLOWED` unless the user has a delivered
order containing the product; `REVIEW_ALREADY_EXISTS` when the user
already has a review on the product; otherwise append the review and
recompute the aggregate rating. -/
def createReview (db : List Product) (orders : List Order) (userId : UserId)
    (productId : ProductId) (rating : ℚ) (content : String)
    (isAnonymous : Bool) (rid : Nat) : Except Err (Product × Review) :=
  match findById db productId with
  | none => Except.error (Err.productNotFound productId)
  | some product =>
    if ¬ checkUserPurchased orders userId productId then
      Except.error Err.reviewNotAllowed
    else if ∃ r ∈ product.reviews, r.user = userId then
      Except.error Err.duplicateReview
    else
      let newReview : Review := ⟨rid, userId, rating, content, isAnonymous⟩
      Except.ok
        (updateProductRating { product with reviews := product.reviews ++ [newReview] },
          newReview)

/-- `ReviewsService.updateReview` (part_017 lines 181-214): owner-only
field updates on the review found by id, then aggregate recomputation.
Embedded review ids are unique, so replacing every review with the id is
the in-place mutation of the found one. -/
def updateReview (db : List Product) (userId : UserId) (productId : ProductId)
    (reviewId : Nat) (rating? : Option ℚ) (content? : Option String)
    (anonymous? : Option Bool) : Except Err (Product × Review) :=
  match findById db productId with
  | none => Except.error (Err.productNotFound productId)
  | some product =>
    match product.reviews.find? (fun r => r.id == reviewId) with
    | none => Except.error Err.reviewNotFound
    | some review =>
      if review.user ≠ userId then Except.error Err.forbidden
      else
        let updated : Review :=
          { review with
            rating := rating?.getD review.rating
            content := content?.getD review.content
            isAnonymous := anonymous?.getD review.isAnonymous }
        Except.ok
          (updateProductRating
            { product with reviews :=
                product.reviews.map (fun r => if r.id = reviewId then updated else r) },
            updated)

/-- `ReviewsService.deleteReview` (part_017 lines 219-251): owner or admin
removes the review found by id, then the aggregate is recomputed. -/
def deleteReview (db : List Product) (userId : UserId) (userRole : String)
    (productId : ProductId) (reviewId : Nat) : Except Err Product :=
  match findById db productId with
  | none => Except.error (Err.productNotFound productId)
  | some product =>
    match product.reviews.find? (fun r => r.id == reviewId) with
    | none => Except.error Err.reviewNotFound
    | some review =>
      if review.user ≠ userId ∧ userRole ≠ "admin" then
        Except.error Err.forbidden
      else
        Except.ok
          (updateProductRating
            { product with reviews :=
                product.reviews.filter (fun r => !(r.id == reviewId)) })

end ReviewsService

namespace AdminService

/-- `AdminService.deleteReview` (admin.service.ts lines 473-500): remove
the review at the found index, then recompute `averageRating` as the raw
mean — without the one-decimal rounding the reviews service applies — and
`totalReviews` as the count (both zero when no review remains). -/
def deleteReview (db : List Product) (productId : ProductId)
    (reviewId : Nat) : Except Err Product :=
  match findById db productId with
  | none => Except.error (Err.productNotFound productId)
  | some product =>
    match product.reviews.findIdx? (fun r => r.id == reviewId) with
    | none => Except.error Err.reviewNotFound
    | some i =>
      let reviews2 := product.reviews.eraseIdx i
      if reviews2.length > 0 then
        Except.ok { product with
          reviews := reviews2
          averageRating := ((reviews2.map (fun r => r.rating)).sum) / (reviews2.length : ℚ)
          totalReviews := reviews2.length }
      else
        Except.ok { product with
          reviews := reviews2
          averageRating := 0
          totalReviews := 0 }

end AdminService

/-- The spec's product aggregate-rating invariant: `totalReviews` is the
review count and `averageRating` the one-decimal-rounded mean (both zero
when there is no review). -/
def ratingInvariant (p : Product) : Prop :=
  p.totalReviews = p.reviews.length ∧
    (p.reviews = [] → p.averageRating = 0 ∧ p.totalReviews = 0) ∧
    (p.reviews ≠ [] →
      p.averageRating =
        round1 (((p.reviews.map (fun r => r.rating)).sum) / (p.reviews.length : ℚ)))

theorem updateProductRating_invariant (p : Product) :
    ratingInvariant (ReviewsService.updateProductRating p) := by
  rw [ReviewsService.updateProductRating]
  by_cases h : p.reviews.length = 0
  · have hnil : p.reviews = [] := List.length_eq_zero.1 h
    rw [if_pos h]
    exact ⟨by simp [hnil], fun _ => ⟨rfl, rfl⟩, fun hne => absurd hnil hne⟩
  · rw [if_neg h]
    exact ⟨rfl, fun hnil => absurd (List.length_eq_zero.2 hnil) h, fun _ => rfl⟩

theorem updateProductRating_reviews (p : Product) :
    (ReviewsService.updateProductRating p).reviews = p.reviews := by
  rw [ReviewsService.updateProductRating]
  split <;> rfl

/-- C5: with the product present, `createReview` fails with
ReviewNotAllowed exactly when the user has no delivered order containing
the product; once the purchase gate passes it fails with DuplicateReview
exactly when the user already has a review on the product; it succeeds
exactly when the gate passes and no prior review exists; and a successful
creation appends the user as one more review author, preserving the
at-most-one-review-per-(product, user) invariant and the
every-author-has-a-delivered-order invariant. -/
theorem c5_review_gating (db : List Product) (orders : List Order)
    (userId : UserId) (productId : ProductId) (rating : ℚ) (content : String)
    (anon : Bool) (rid : Nat) (product : Product)
    (hp : findById db productId = some product) :
    (ReviewsService.createReview db orders userId productId rating content anon rid =
        Except.error Err.reviewNotAllowed ↔
      ¬ ReviewsService.checkUserPurchased orders userId productId) ∧
    (ReviewsService.checkUserPurchased orders userId productId →
      (ReviewsService.createReview db orders userId productId rating content anon rid =
          Except.error Err.duplicateReview ↔
        ∃ r ∈ product.reviews, r.user = userId)) ∧
    ((∃ pr, ReviewsService.createReview db orders userId productId rating content anon rid =
        Except.ok pr) ↔
      (ReviewsService.checkUserPurchased orders userId productId ∧
        ¬ ∃ r ∈ product.reviews, r.user = userId)) ∧
    (∀ p2 rev,
      ReviewsService.createReview db orders userId productId rating content anon rid =
        Except.ok (p2, rev) →
      p2.reviews.map (fun r => r.user) =
          product.reviews.map (fun r => r.user) ++ [userId] ∧
      ((product.reviews.map (fun r => r.user)).Nodup →
        (p2.reviews.map (fun r => r.user)).Nodup) ∧
      ((∀ r ∈ product.reviews,
          ReviewsService.checkUserPurchased orders r.user productId) →
        ∀ r ∈ p2.reviews,
          ReviewsService.checkUserPurchased orders r.user productId)) := by
  have hopen : ReviewsService.createReview db orders userId productId rating
      content anon rid =
      (if ¬ ReviewsService.checkUserPurchased orders userId productId then
        Except.error Err.reviewNotAllowed
      else if ∃ r ∈ product.reviews, r.user = userId then
        Except.error Err.duplicateReview
      else
        Except.ok
          (ReviewsService.updateProductRating
            { product with reviews :=
                product.reviews ++ [⟨rid, userId, rating, content, anon⟩] },
            ⟨rid, userId, rating, content, anon⟩)) := by
    rw [ReviewsService.createReview, hp]
  by_cases hpur : ReviewsService.checkUserPurchased orders userId productId
  · rw [if_neg (not_not_intro hpur)] at hopen
    by_cases hdup : ∃ r ∈ product.reviews, r.user = userId
    · rw [if_pos hdup] at hopen
      rw [hopen]
      refine ⟨iff_of_false (by simp) (not_not_intro hpur),
        fun _ => iff_of_true rfl hdup, ?_, ?_⟩
      · refine iff_of_false ?_ ?_
        · rintro ⟨pr, hpr⟩
          exact Except.noConfusion hpr
        · rintro ⟨-, hnd⟩
          exact hnd hdup
      · intro p2 rev h
        exact Except.noConfusion h
    · rw [if_neg hdup] at hopen
      rw [hopen]
      refine ⟨iff_of_false (by simp) (not_not_intro hpur),
        fun _ => iff_of_false (by simp) hdup,
        iff_of_true ⟨_, rfl⟩ ⟨hpur, hdup⟩, ?_⟩
      intro p2 rev h
      obtain ⟨hpp, -⟩ := Prod.mk.injEq .. ▸ Except.ok.inj h
      have hrev : p2.reviews =
          product.reviews ++ [⟨rid, userId, rating, content, anon⟩] := by
        rw [← hpp, updateProductRating_reviews]
      refine ⟨by rw [hrev]; simp, ?_, ?_⟩
      · intro hnd
        rw [hrev, List.map_append, List.nodup_append]
        refine ⟨hnd, by simp, ?_⟩
        intro x hx hx2
        simp only [List.map_cons, List.map_nil, List.mem_singleton] at hx2
        subst hx2
        exact hdup (by simpa using hx)
      · intro hall r hr
        rw [hrev] at hr
        rcases List.mem_append.1 hr with hold | hnew
        · exact hall r hold
        · have : r = ⟨rid, userId, rating, content, anon⟩ := by simpa using hnew
          rw [this]
          exact hpur
  · rw [if_pos hpur] at hopen
    rw [hopen]
    refine ⟨iff_of_true rfl hpur, fun hP => absurd hP hpur, ?_, ?_⟩
    · refine iff_of_false ?_ ?_
      · rintro ⟨pr, hpr⟩
        exact Except.noConfusion hpr
      · rintro ⟨hP, -⟩
        exact hpur hP
    · intro p2 rev h
      exact Except.noConfusion h

/-- C5 witness: a user with a delivered order containing product 1 and no
prior review successfully creates one. -/
theorem c5_review_gating_witness :
    ∃ pr, ReviewsService.createReview demoDb
        [{ baseOrder with status := OrderStatus.delivered }] 7 1 5 "good"
        false 1 = Except.ok pr :=
  ((c5_review_gating demoDb [{ baseOrder with status := OrderStatus.delivered }]
      7 1 5 "good" false 1 ⟨1, "P", 100, 5, true, [], 0, 0⟩ rfl).2.2.1).mpr
    ⟨by decide, by decide⟩

/-- A product with four reviews rated 4, 4, 5, 5 (consistent aggregate:
mean 4.5, count 4). -/
def c6product : Product :=
  { id := 1, name := "P", price := 100, stock := 5, isActive := true
    reviews := [⟨1, 11, 4, "a", false⟩, ⟨2, 12, 4, "b", false⟩,
      ⟨3, 13, 5, "c", false⟩, ⟨4, 14, 5, "d", false⟩]
    averageRating := 9 / 2
    totalReviews := 4 }

def c6db : List Product := [c6product]

/-- The three reviews left after deleting review 4. -/
def c6rest : List Review :=
  [⟨1, 11, 4, "a", false⟩, ⟨2, 12, 4, "b", false⟩, ⟨3, 13, 5, "c", false⟩]

/-- The product as `AdminService.deleteReview` leaves it: the raw mean,
not rounded to one decimal. -/
def c6deleted : Product :=
  { id := 1, name := "P", price := 100, stock := 5, isActive := true
    reviews := c6rest
    averageRating := ((c6rest.map (fun r => r.rating)).sum) / (c6rest.length : ℚ)
    totalReviews := c6rest.length }

/-- C6: every review mutation in `ReviewsService` (create, update,
delete) re-establishes the aggregate-rating invariant — `totalReviews`
is the review count and `averageRating` the one-decimal-rounded mean, or
both zero when no review remains; but `AdminService.deleteReview`
violates it: deleting one 5-rating from reviews rated 4, 4, 5, 5 leaves
`averageRating = 13/3` where the invariant demands the rounded `43/10`. -/
theorem c6_rating_aggregate_recompute :
    (∀ (db : List Product) (orders : List Order) (u : UserId)
        (pid : ProductId) (rating : ℚ) (content : String) (anon : Bool)
        (rid : Nat) (p2 : Product) (rev : Review),
      ReviewsService.createReview db orders u pid rating content anon rid =
        Except.ok (p2, rev) → ratingInvariant p2) ∧
    (∀ (db : List Product) (u : UserId) (pid : ProductId) (rid : Nat)
        (rating? : Option ℚ) (content? : Option String)
        (anonymous? : Option Bool) (p2 : Product) (rev : Review),
      ReviewsService.updateReview db u pid rid rating? content? anonymous? =
        Except.ok (p2, rev) → ratingInvariant p2) ∧
    (∀ (db : List Product) (u : UserId) (role : String) (pid : ProductId)
        (rid : Nat) (p2 : Product),
      ReviewsService.deleteReview db u role pid rid = Except.ok p2 →
        ratingInvariant p2) ∧
    (AdminService.deleteReview c6db 1 4 = Except.ok c6deleted ∧
      c6deleted.averageRating = 13 / 3 ∧
      round1 (((c6deleted.reviews.map (fun r => r.rating)).sum) /
        (c6deleted.reviews.length : ℚ)) = 43 / 10 ∧
      ¬ ratingInvariant c6deleted) := by
  refine ⟨?_, ?_, ?_, rfl, ?_, ?_, ?_⟩
  · intro db orders u pid rating content anon rid p2 rev h
    rw [ReviewsService.createReview] at h
    cases hf : findById db pid with
    | none =>
      rw [hf] at h
      exact Except.noConfusion h
    | some product =>
      simp only [hf] at h
      by_cases hpur : ReviewsService.checkUserPurchased orders u pid
      · rw [if_neg (not_not_intro hpur)] at h
        by_cases hdup : ∃ r ∈ product.reviews, r.user = u
        · rw [if_pos hdup] at h
          exact Except.noConfusion h
        · rw [if_neg hdup] at h
          obtain ⟨hpp, -⟩ := Prod.mk.injEq .. ▸ Except.ok.inj h
          rw [← hpp]
          exact updateProductRating_invariant _
      · rw [if_pos hpur] at h
        exact Except.noConfusion h
  · intro db u pid rid rating? content? anonymous? p2 rev h
    rw [ReviewsService.updateReview] at h
    cases hf : findById db pid with
    | none =>
      rw [hf] at h
      exact Except.noConfusion h
    | some product =>
      simp only [hf] at h
      cases hr : product.reviews.find? (fun r => r.id == rid) with
      | none =>
        simp only [hr] at h
        exact Except.noConfusion h
      | some review =>
        simp only [hr] at h
        by_cases hown : review.user ≠ u
        · rw [if_pos hown] at h
          exact Except.noConfusion h
        · rw [if_neg hown] at h
          obtain ⟨hpp, -⟩ := Prod.mk.injEq .. ▸ Except.ok.inj h
          rw [← hpp]
          exact updateProductRating_invariant _
  · intro db u role pid rid p2 h
    rw [ReviewsService.deleteReview] at h
    cases hf : findById db pid with
    | none =>
      rw [hf] at h
      exact Except.noConfusion h
    | some product =>
      simp only [hf] at h
      cases hr : product.reviews.find? (fun r => r.id == rid) with
      | none =>
        simp only [hr] at h
        exact Except.noConfusion h
      | some review =>
        simp only [hr] at h
        by_cases hown : review.user ≠ u ∧ role ≠ "admin"
        · rw [if_pos hown] at h
          exact Except.noConfusion h
        · rw [if_neg hown] at h
          rw [← Except.ok.inj h]
          exact updateProductRating_invariant _
  · show ((c6rest.map (fun r => r.rating)).sum) / (c6rest.length : ℚ) = 13 / 3
    rw [c6rest]
    norm_num
  · show round1 (((c6rest.map (fun r => r.rating)).sum) / (c6rest.length : ℚ)) =
      43 / 10
    rw [c6rest]
    rw [round1]
    norm_num
  · rintro ⟨-, -, h3⟩
    have hne : c6deleted.reviews ≠ [] := by
      rw [c6deleted]
      simp [c6rest]
    have havg := h3 hne
    have h13 : c6deleted.averageRating = 13 / 3 := by
      show ((c6rest.map (fun r => r.rating)).sum) / (c6rest.length : ℚ) = 13 / 3
      rw [c6rest]
      norm_num
    have h43 : round1 (((c6deleted.reviews.map (fun r => r.rating)).sum) /
        (c6deleted.reviews.length : ℚ)) = 43 / 10 := by
      show round1 (((c6rest.map (fun r => r.rating)).sum) /
        (c6rest.length : ℚ)) = 43 / 10
      rw [c6rest, round1]
      norm_num
    rw [h13, h43] at havg
    norm_num at havg

/-- C6 witness: the owner of review 4 deletes it through the reviews
service; the invariant (rounded mean 4.3, count 3) holds afterwards. -/
theorem c6_rating_aggregate_recompute_witness :
    ∃ p2, ReviewsService.deleteReview c6db 14 "user" 1 4 = Except.ok p2 ∧
      ratingInvariant p2 :=
  ⟨ReviewsService.updateProductRating
      { c6product with reviews := c6rest },
    by rw [ReviewsService.deleteReview]; rfl,
    c6_rating_aggregate_recompute.2.2.1 c6db 14 "user" 1 4 _
      (by rw [ReviewsService.deleteReview]; rfl)⟩

/-- One raw result of the AI collaborator's `/retrieve/` call: the
`metadata.item_id` (possibly absent) and a similarity score. -/
structure AiResult where
  item_id : Option ProductId
  similarity : ℚ
deriving DecidableEq, Repr

namespace ProductsService

def SIMILARITY_THRESHOLD : ℚ := 4 / 10

/-- A JS `Map` as an insertion-ordered association list: `set` replaces
the entry in place when the key is present, otherwise appends. -/
def mapSet (m : List (ProductId × ℚ)) (k : ProductId) (v : ℚ) :
    List (ProductId × ℚ) :=
  if m.any (fun e => e.1 == k) then
    m.map (fun e => if e.1 = k then (k, v) else e)
  else m ++ [(k, v)]

/-- `Map.get`: the value at the key, if present. -/
def mapGet (m : List (ProductId × ℚ)) (k : ProductId) : Option ℚ :=
  (m.find? (fun e => e.1 == k)).map (fun e => e.2)

/-- The grouping loop of `searchByImage` (products.service.ts lines
103-116): skip results below the threshold or without an item id; keep
the maximum similarity per item id (`map.get(itemId) || 0` read, set on
strict improvement). -/
def buildSimilarityMap : List AiResult → List (ProductId × ℚ) →
    List (ProductId × ℚ)
  | [], m => m
  | r :: rest, m =>
    if r.similarity < SIMILARITY_THRESHOLD then buildSimilarityMap rest m
    else
      match r.item_id with
      | none => buildSimilarityMap rest m
      | some pid =>
        if (mapGet m pid).getD 0 < r.similarity then
          buildSimilarityMap rest (mapSet m pid r.similarity)
        else buildSimilarityMap rest m

/-- `ProductsService.searchByImage` (lines 96-154) after the `/retrieve/`
call: group by item id keeping the maximum similarity, fetch the active
products among those ids, attach each product's similarity, drop anything
below the threshold, and sort by similarity descending.  Item ids are
numeric in this embedding, so the ObjectId-validity filter of the source
keeps every id. -/
def searchByImage (aiResults : List AiResult) (db : List Product) :
    List (Product × ℚ) :=
  let m := buildSimilarityMap aiResults []
  let itemIds := m.map (fun e => e.1)
  let products := db.filter (fun p => itemIds.contains p.id && p.isActive)
  let productsWithSimilarity :=
    (products.map (fun p => (p, (mapGet m p.id).getD 0))).filter
      (fun x => SIMILARITY_THRESHOLD ≤ x.2)
  productsWithSimilarity.mergeSort (fun a b => decide (b.2 ≤ a.2))

theorem mapGet_mapSet (m : List (ProductId × ℚ)) (k : ProductId) (v : ℚ)
    (q : ProductId) :
    mapGet (mapSet m k v) q = if q = k then some v else mapGet m q := by
  rw [mapSet]
  by_cases hany : m.any (fun e => e.1 == k)
  · rw [if_pos hany]
    have hpred : ((fun e : ProductId × ℚ => e.1 == q) ∘
        (fun e => if e.1 = k then (k, v) else e)) =
        (fun e : ProductId × ℚ => e.1 == q) := by
      funext e
      by_cases he : e.1 = k <;> simp [Function.comp, he]
    rw [mapGet, List.find?_map, hpred]
    cases hf : m.find? (fun e => e.1 == q) with
    | none =>
      by_cases hq : q = k
      · exfalso
        obtain ⟨e, he, hek⟩ := List.any_eq_true.1 hany
        exact (List.find?_eq_none.1 hf e he) (by simpa [hq] using hek)
      · simp [mapGet, hf, hq]
    | some e0 =>
      have he0 : e0.1 = q := by simpa using List.find?_some hf
      by_cases hq : q = k
      · simp [mapGet, hf, hq, he0.trans hq]
      · have hne : ¬ e0.1 = k := fun hc => hq (he0 ▸ hc)
        simp [mapGet, hf, hq, hne]
  · rw [if_neg hany]
    rw [mapGet, List.find?_append]
    cases hf : m.find? (fun e => e.1 == q) with
    | none =>
      by_cases hq : q = k
      · simp [hf, hq, List.find?]
      · have hne : (k == q) = false := by
          simp only [beq_eq_false_iff_ne, ne_eq]
          exact fun hc => hq hc.symm
        simp [mapGet, hf, hq, List.find?, hne]
    | some e0 =>
      have he0 : e0.1 = q := by simpa using List.find?_some hf
      by_cases hq : q = k
      · exfalso
        rw [List.any_eq_true] at hany
        exact hany ⟨e0, List.mem_of_find?_eq_some hf, by simp [he0, hq]⟩
      · simp [mapGet, hf, hq]

theorem mapSet_values (m : List (ProductId × ℚ)) (k : ProductId) (v : ℚ)
    (hm : ∀ e ∈ m, SIMILARITY_THRESHOLD ≤ e.2)
    (hv : SIMILARITY_THRESHOLD ≤ v) :
    ∀ e ∈ mapSet m k v, SIMILARITY_THRESHOLD ≤ e.2 := by
  intro e he
  rw [mapSet] at he
  by_cases hany : m.any (fun x => x.1 == k)
  · rw [if_pos hany] at he
    obtain ⟨x, hx, hxe⟩ := List.mem_map.1 he
    by_cases hxk : x.1 = k
    · rw [if_pos hxk] at hxe
      rw [← hxe]
      exact hv
    · rw [if_neg hxk] at hxe
      rw [← hxe]
      exact hm x hx
  · rw [if_neg hany] at he
    rcases List.mem_append.1 he with hmem | hlast
    · exact hm e hmem
    · rw [List.mem_singleton.1 hlast]
      exact hv

theorem mapGet_values (m : List (ProductId × ℚ)) (q : ProductId) (w : ℚ)
    (hm : ∀ e ∈ m, SIMILARITY_THRESHOLD ≤ e.2) (h : mapGet m q = some w) :
    SIMILARITY_THRESHOLD ≤ w := by
  rw [mapGet] at h
  cases hf : m.find? (fun e => e.1 == q) with
  | none => rw [hf] at h; exact Option.noConfusion h
  | some e0 =>
    rw [hf] at h
    obtain rfl := Option.some.inj h
    exact hm e0 (List.mem_of_find?_eq_some hf)

/-- Membership in the candidate set the grouping loop maximises over: an
existing map value for the key, or a qualifying raw result (right id,
similarity at or above the threshold). -/
def candidate (m : List (ProductId × ℚ)) (rs : List AiResult)
    (q : ProductId) (v : ℚ) : Prop :=
  mapGet m q = some v ∨
    ∃ r ∈ rs, r.item_id = some q ∧ SIMILARITY_THRESHOLD ≤ r.similarity ∧
      r.similarity = v

theorem candidate_cons_not_qual (m : List (ProductId × ℚ)) (r : AiResult)
    (rest : List AiResult) (q : ProductId) (w : ℚ)
    (h : ¬ (r.item_id = some q ∧ SIMILARITY_THRESHOLD ≤ r.similarity)) :
    candidate m (r :: rest) q w ↔ candidate m rest q w := by
  constructor
  · rintro (hg | ⟨r', hr', a1, a2, a3⟩)
    · exact Or.inl hg
    · rcases List.mem_cons.1 hr' with rfl | hmem
      · exact absurd ⟨a1, a2⟩ h
      · exact Or.inr ⟨r', hmem, a1, a2, a3⟩
  · rintro (hg | ⟨r', hmem, a1, a2, a3⟩)
    · exact Or.inl hg
    · exact Or.inr ⟨r', List.mem_cons_of_mem r hmem, a1, a2, a3⟩

theorem candidate_congr_get (m1 m2 : List (ProductId × ℚ))
    (rs : List AiResult) (q : ProductId)
    (h : mapGet m1 q = mapGet m2 q) (w : ℚ) :
    candidate m1 rs q w ↔ candidate m2 rs q w := by
  rw [candidate, candidate, h]

theorem buildSimilarityMap_get (rs : List AiResult)
    (m : List (ProductId × ℚ)) (q : ProductId) (v : ℚ)
    (hm : ∀ e ∈ m, SIMILARITY_THRESHOLD ≤ e.2) :
    mapGet (buildSimilarityMap rs m) q = some v ↔
      (candidate m rs q v ∧ ∀ w, candidate m rs q w → w ≤ v) := by
  induction rs generalizing m with
  | nil =>
    rw [buildSimilarityMap]
    constructor
    · intro h
      refine ⟨Or.inl h, ?_⟩
      rintro w (hw | ⟨r, hr, -⟩)
      · exact le_of_eq (Option.some.inj (hw.symm.trans h))
      · cases hr
    · rintro ⟨hc, -⟩
      rcases hc with h | ⟨r, hr, -⟩
      · exact h
      · cases hr
  | cons r rest ih =>
    by_cases hlow : r.similarity < SIMILARITY_THRESHOLD
    · have hstep : buildSimilarityMap (r :: rest) m = buildSimilarityMap rest m := by
        rw [buildSimilarityMap, if_pos hlow]
      have hnq : ¬ (r.item_id = some q ∧ SIMILARITY_THRESHOLD ≤ r.similarity) :=
        fun hc => absurd hc.2 (not_le.2 hlow)
      rw [hstep, ih m hm]
      constructor
      · rintro ⟨h1, h2⟩
        exact ⟨(candidate_cons_not_qual m r rest q v hnq).2 h1,
          fun w hw => h2 w ((candidate_cons_not_qual m r rest q w hnq).1 hw)⟩
      · rintro ⟨h1, h2⟩
        exact ⟨(candidate_cons_not_qual m r rest q v hnq).1 h1,
          fun w hw => h2 w ((candidate_cons_not_qual m r rest q w hnq).2 hw)⟩
    · have hge : SIMILARITY_THRESHOLD ≤ r.similarity := not_lt.1 hlow
      cases hid : r.item_id with
      | none =>
        have hstep : buildSimilarityMap (r :: rest) m =
            buildSimilarityMap rest m := by
          rw [buildSimilarityMap, if_neg hlow, hid]
        have hnq : ¬ (r.item_id = some q ∧
            SIMILARITY_THRESHOLD ≤ r.similarity) := by
          rw [hid]
          rintro ⟨hc, -⟩
          exact Option.noConfusion hc
        rw [hstep, ih m hm]
        constructor
        · rintro ⟨h1, h2⟩
          exact ⟨(candidate_cons_not_qual m r rest q v hnq).2 h1,
            fun w hw => h2 w ((candidate_cons_not_qual m r rest q w hnq).1 hw)⟩
        · rintro ⟨h1, h2⟩
          exact ⟨(candidate_cons_not_qual m r rest q v hnq).1 h1,
            fun w hw => h2 w ((candidate_cons_not_qual m r rest q w hnq).2 hw)⟩
      | some pid =>
        have hstep : buildSimilarityMap (r :: rest) m =
            if (mapGet m pid).getD 0 < r.similarity then
              buildSimilarityMap rest (mapSet m pid r.similarity)
            else buildSimilarityMap rest m := by
          rw [buildSimilarityMap, if_neg hlow, hid]
        by_cases hqp : q = pid
        · subst hqp
          by_cases himp : (mapGet m q).getD 0 < r.similarity
          · rw [hstep, if_pos himp,
              ih (mapSet m q r.similarity) (mapSet_values m q r.similarity hm hge)]
            have hgetset : mapGet (mapSet m q r.similarity) q =
                some r.similarity := by
              rw [mapGet_mapSet, if_pos rfl]
            constructor
            · rintro ⟨h1, h2⟩
              constructor
              · rcases h1 with hv | ⟨r', hr', a1, a2, a3⟩
                · rw [hgetset] at hv
                  exact Or.inr ⟨r, List.mem_cons_self r rest, hid, hge,
                    Option.some.inj hv⟩
                · exact Or.inr ⟨r', List.mem_cons_of_mem r hr', a1, a2, a3⟩
              · rintro w (hw | ⟨r', hr', b1, b2, b3⟩)
                · have hcur : (mapGet m q).getD 0 = w := by rw [hw]; rfl
                  have hsimv : r.similarity ≤ v := h2 r.similarity (Or.inl hgetset)
                  exact le_of_lt (lt_of_lt_of_le (hcur ▸ himp) hsimv)
                · rcases List.mem_cons.1 hr' with hreq | hmem
                  · have hwr : w = r.similarity := by rw [← b3, hreq]
                    rw [hwr]
                    exact h2 r.similarity (Or.inl hgetset)
                  · exact h2 w (Or.inr ⟨r', hmem, b1, b2, b3⟩)
            · rintro ⟨h1, h2⟩
              have hsimv : r.similarity ≤ v :=
                h2 r.similarity (Or.inr ⟨r, List.mem_cons_self r rest, hid, hge, rfl⟩)
              constructor
              · rcases h1 with hv | ⟨r', hr', a1, a2, a3⟩
                · have hcur : (mapGet m q).getD 0 = v := by rw [hv]; rfl
                  exact absurd hsimv (not_le.2 (hcur ▸ himp))
                · rcases List.mem_cons.1 hr' with rfl | hmem
                  · exact Or.inl (by rw [hgetset, a3])
                  · exact Or.inr ⟨r', hmem, a1, a2, a3⟩
              · rintro w (hw | ⟨r', hmem, b1, b2, b3⟩)
                · rw [hgetset] at hw
                  obtain rfl := Option.some.inj hw
                  exact hsimv
                · exact h2 w (Or.inr ⟨r', List.mem_cons_of_mem r hmem, b1, b2, b3⟩)
          · rw [hstep, if_neg himp, ih m hm]
            obtain ⟨w0, hw0⟩ : ∃ w0, mapGet m q = some w0 := by
              cases hg : mapGet m q with
              | some w0 => exact ⟨w0, rfl⟩
              | none =>
                exfalso
                apply himp
                rw [hg]
                simpa using lt_of_lt_of_le
                  (by norm_num [SIMILARITY_THRESHOLD] :
                    (0 : ℚ) < SIMILARITY_THRESHOLD) hge
            have hsw0 : r.similarity ≤ w0 := by
              have h' := not_lt.1 himp
              rw [hw0] at h'
              simpa using h'
            constructor
            · rintro ⟨h1, h2⟩
              constructor
              · rcases h1 with hv | ⟨r', hmem, a1, a2, a3⟩
                · exact Or.inl hv
                · exact Or.inr ⟨r', List.mem_cons_of_mem r hmem, a1, a2, a3⟩
              · rintro w (hw | ⟨r', hr', b1, b2, b3⟩)
                · exact h2 w (Or.inl hw)
                · rcases List.mem_cons.1 hr' with rfl | hmem
                  · rw [← b3]
                    exact le_trans hsw0 (h2 w0 (Or.inl hw0))
                  · exact h2 w (Or.inr ⟨r', hmem, b1, b2, b3⟩)
            · rintro ⟨h1, h2⟩
              constructor
              · rcases h1 with hv | ⟨r', hr', a1, a2, a3⟩
                · exact Or.inl hv
                · rcases List.mem_cons.1 hr' with rfl | hmem
                  · have hw0v : w0 ≤ v := h2 w0 (Or.inl hw0)
                    have hvw0 : v ≤ w0 := a3 ▸ hsw0
                    exact Or.inl (le_antisymm hvw0 hw0v ▸ hw0)
                  · exact Or.inr ⟨r', hmem, a1, a2, a3⟩
              · rintro w (hw | ⟨r', hmem, b1, b2, b3⟩)
                · exact h2 w (Or.inl hw)
                · exact h2 w (Or.inr ⟨r', List.mem_cons_of_mem r hmem, b1, b2, b3⟩)
        · have hnq : ¬ (r.item_id = some q ∧
              SIMILARITY_THRESHOLD ≤ r.similarity) := by
            rw [hid]
            rintro ⟨hc, -⟩
            exact hqp (Option.some.inj hc).symm
          by_cases himp : (mapGet m pid).getD 0 < r.similarity
          · rw [hstep, if_pos himp,
              ih (mapSet m pid r.similarity) (mapSet_values m pid r.similarity hm hge)]
            have hget : mapGet (mapSet m pid r.similarity) q = mapGet m q := by
              rw [mapGet_mapSet, if_neg hqp]
            constructor
            · rintro ⟨h1, h2⟩
              exact ⟨(candidate_cons_not_qual m r rest q v hnq).2
                  ((candidate_congr_get _ m rest q hget v).1 h1),
                fun w hw => h2 w ((candidate_congr_get _ m rest q hget w).2
                  ((candidate_cons_not_qual m r rest q w hnq).1 hw))⟩
            · rintro ⟨h1, h2⟩
              exact ⟨(candidate_congr_get _ m rest q hget v).2
                  ((candidate_cons_not_qual m r rest q v hnq).1 h1),
                fun w hw => h2 w ((candidate_cons_not_qual m r rest q w hnq).2
                  ((candidate_congr_get _ m rest q hget w).1 hw))⟩
          · rw [hstep, if_neg himp, ih m hm]
            constructor
            · rintro ⟨h1, h2⟩
              exact ⟨(candidate_cons_not_qual m r rest q v hnq).2 h1,
                fun w hw => h2 w ((candidate_cons_not_qual m r rest q w hnq).1 hw)⟩
            · rintro ⟨h1, h2⟩
              exact ⟨(candidate_cons_not_qual m r rest q v hnq).1 h1,
                fun w hw => h2 w ((candidate_cons_not_qual m r rest q w hnq).2 hw)⟩

end ProductsService

/-- C9: every entry returned by `searchByImage` carries a similarity at or
above the 0.4 threshold; product ids appear at most once; each entry's
similarity is the maximum similarity among all raw results for that item
id (and is itself one of them); and the list is sorted by similarity in
descending order. -/
theorem c9_searchByImage_post (aiResults : List AiResult) (db : List Product)
    (hnd : (db.map (fun p => p.id)).Nodup) :
    (∀ x ∈ ProductsService.searchByImage aiResults db,
      ProductsService.SIMILARITY_THRESHOLD ≤ x.2) ∧
    ((ProductsService.searchByImage aiResults db).map (fun x => x.1.id)).Nodup ∧
    (∀ x ∈ ProductsService.searchByImage aiResults db,
      (∃ r ∈ aiResults, r.item_id = some x.1.id ∧ r.similarity = x.2) ∧
      ∀ r ∈ aiResults, r.item_id = some x.1.id → r.similarity ≤ x.2) ∧
    List.Sorted (fun a b : Product × ℚ => b.2 ≤ a.2)
      (ProductsService.searchByImage aiResults db) := by
  have hS : ProductsService.searchByImage aiResults db =
      (((db.filter (fun p =>
          ((ProductsService.buildSimilarityMap aiResults []).map
            (fun e => e.1)).contains p.id && p.isActive)).map
        (fun p => (p, (ProductsService.mapGet
          (ProductsService.buildSimilarityMap aiResults []) p.id).getD 0))).filter
        (fun x => decide (ProductsService.SIMILARITY_THRESHOLD ≤ x.2))).mergeSort
        (fun a b => decide (b.2 ≤ a.2)) := rfl
  set m := ProductsService.buildSimilarityMap aiResults [] with hm_def
  set products := db.filter (fun p => (m.map (fun e => e.1)).contains p.id &&
    p.isActive) with hp_def
  set mapped := products.map
    (fun p => (p, (ProductsService.mapGet m p.id).getD 0)) with hmap_def
  set filtered := mapped.filter
    (fun x => decide (ProductsService.SIMILARITY_THRESHOLD ≤ x.2)) with hfil_def
  have hmemS : ∀ x, x ∈ ProductsService.searchByImage aiResults db ↔
      x ∈ filtered := by
    intro x
    rw [hS]
    exact (List.mergeSort_perm filtered _).mem_iff
  have hmemF : ∀ x, x ∈ filtered →
      ProductsService.SIMILARITY_THRESHOLD ≤ x.2 ∧
      ∃ p ∈ products, x = (p, (ProductsService.mapGet m p.id).getD 0) := by
    intro x hx
    obtain ⟨hxm, hxt⟩ := List.mem_filter.1 hx
    obtain ⟨p, hp, hpe⟩ := List.mem_map.1 hxm
    exact ⟨of_decide_eq_true hxt, p, hp, hpe.symm⟩
  have hTpos : (0 : ℚ) < ProductsService.SIMILARITY_THRESHOLD := by
    norm_num [ProductsService.SIMILARITY_THRESHOLD]
  refine ⟨?_, ?_, ?_, ?_⟩
  · intro x hx
    exact (hmemF x ((hmemS x).1 hx)).1
  · have h1 : filtered.Sublist mapped := List.filter_sublist mapped
    have h2 : mapped.map (fun x => x.1.id) = products.map (fun p => p.id) := by
      rw [hmap_def, List.map_map]
      rfl
    have h3 : products.Sublist db := List.filter_sublist db
    have h4 : (products.map (fun p => p.id)).Nodup :=
      (h3.map (fun p => p.id)).nodup hnd
    have h5 : (filtered.map (fun x => x.1.id)).Nodup :=
      (h1.map (fun x => x.1.id)).nodup (h2 ▸ h4)
    have hperm : List.Perm
        ((ProductsService.searchByImage aiResults db).map (fun x => x.1.id))
        (filtered.map (fun x => x.1.id)) := by
      rw [hS]
      exact (List.mergeSort_perm filtered _).map (fun x => x.1.id)
    exact hperm.nodup_iff.2 h5
  · intro x hx
    obtain ⟨hxt, p, hp, hpe⟩ := hmemF x ((hmemS x).1 hx)
    have hx2 : x.2 = (ProductsService.mapGet m p.id).getD 0 := by rw [hpe]
    have hx1 : x.1 = p := by rw [hpe]
    cases hg : ProductsService.mapGet m p.id with
    | none =>
      exfalso
      rw [hg] at hx2
      simp only [Option.getD_none] at hx2
      rw [hx2] at hxt
      exact absurd hxt (not_le.2 hTpos)
    | some s =>
      have hxs : x.2 = s := by
        rw [hx2, hg]
        rfl
      have hspec := (ProductsService.buildSimilarityMap_get aiResults [] p.id s
        (by intro e he; cases he)).1 (hm_def ▸ hg)
      obtain ⟨hcand, hub⟩ := hspec
      rcases hcand with hnil | ⟨r, hr, a1, a2, a3⟩
      · exact absurd hnil (by simp [ProductsService.mapGet])
      · constructor
        · exact ⟨r, hr, by rw [hx1]; exact a1, by rw [hxs]; exact a3⟩
        · intro r' hr' hid'
          rw [hxs]
          by_cases hq : ProductsService.SIMILARITY_THRESHOLD ≤ r'.similarity
          · exact hub r'.similarity
              (Or.inr ⟨r', hr', by rw [← hx1]; exact hid', hq, rfl⟩)
          · have hsT : ProductsService.SIMILARITY_THRESHOLD ≤ s := by
              rw [← hxs]
              exact hxt
            exact le_trans (le_of_not_le hq) hsT
  · rw [hS]
    have htrans : ∀ a b c : Product × ℚ, decide (b.2 ≤ a.2) = true →
        decide (c.2 ≤ b.2) = true → decide (c.2 ≤ a.2) = true :=
      fun a b c hab hbc =>
        decide_eq_true (le_trans (of_decide_eq_true hbc) (of_decide_eq_true hab))
    have htotal : ∀ a b : Product × ℚ,
        (decide (b.2 ≤ a.2) || decide (a.2 ≤ b.2)) = true := by
      intro a b
      rcases le_total b.2 a.2 with h | h <;> simp [h]
    exact (List.sorted_mergeSort htrans htotal filtered).imp
      (fun h => of_decide_eq_true h)

/-- C9 witness: the theorem applied at a concrete retrieval — one raw
result for product 1 with similarity 0.5 against the demo catalogue. -/
theorem c9_searchByImage_post_witness :
    ((ProductsService.searchByImage [⟨some 1, 1 / 2⟩] demoDb).map
      (fun x => x.1.id)).Nodup :=
  (c9_searchByImage_post [⟨some 1, 1 / 2⟩] demoDb (by decide)).2.1

namespace AdminService

/-- The `$match` stage shared by the dashboard revenue aggregation
(admin.service.ts lines 287-293) and the sales chart (lines 389-394):
orders created at or after the period start whose status is not in
`['cancelled']`. -/
def revenueMatch (orders : List Order) (startDate : ℤ) : List Order :=
  orders.filter (fun o => decide (startDate ≤ o.createdAt ∧
    o.status ≠ OrderStatus.cancelled))

/-- `getDashboardStats` revenue `$group` (lines 294-301, 316): the `$sum`
of `totalAmount` over the matched orders, 0 when none matches. -/
def totalRevenue (orders : List Order) (startDate : ℤ) : ℚ :=
  ((revenueMatch orders startDate).map (fun o => o.totalAmount)).sum

/-- The `$avg` of `totalAmount` over the matched orders, 0 when none
matches (`revenueData[0] || { averageOrderValue: 0 }`). -/
def averageOrderValue (orders : List Order) (startDate : ℤ) : ℚ :=
  if (revenueMatch orders startDate).length = 0 then 0
  else totalRevenue orders startDate / ((revenueMatch orders startDate).length : ℚ)

/-- `getSalesChart` (lines 388-405): one row of the `$group` stage — the
`totalSales` and `orderCount` of the calendar bucket `b` under the bucket
function induced by the requested period. -/
def salesChartBucket (bucket : ℤ → Nat) (orders : List Order)
    (startDate : ℤ) (b : Nat) : ℚ × Nat :=
  let grouped := (revenueMatch orders startDate).filter
    (fun o => bucket o.createdAt == b)
  ((grouped.map (fun o => o.totalAmount)).sum, grouped.length)

end AdminService

theorem revenueMatch_cons_cancelled (orders : List Order) (startDate : ℤ)
    (o : Order) (hc : o.status = OrderStatus.cancelled) :
    AdminService.revenueMatch (o :: orders) startDate =
      AdminService.revenueMatch orders startDate := by
  rw [AdminService.revenueMatch, AdminService.revenueMatch, List.filter_cons]
  have hfalse : decide (startDate ≤ o.createdAt ∧
      o.status ≠ OrderStatus.cancelled) = false := by
    simp [hc]
  rw [hfalse]
  simp

/-- C10: the dashboard's totalRevenue and averageOrderValue and the
sales-chart bucket sums are computed over the non-cancelled orders of the
period only — restricting the order collection to its non-cancelled
orders changes nothing, and adding a cancelled order changes neither the
revenue figures nor any sales-chart bucket. -/
theorem c10_revenue_excludes_cancelled (orders : List Order) (startDate : ℤ)
    (bucket : ℤ → Nat) (b : Nat) (o : Order)
    (hc : o.status = OrderStatus.cancelled) :
    AdminService.totalRevenue orders startDate =
      AdminService.totalRevenue
        (orders.filter (fun x => decide (x.status ≠ OrderStatus.cancelled)))
        startDate ∧
    AdminService.totalRevenue (o :: orders) startDate =
      AdminService.totalRevenue orders startDate ∧
    AdminService.averageOrderValue (o :: orders) startDate =
      AdminService.averageOrderValue orders startDate ∧
    AdminService.salesChartBucket bucket (o :: orders) startDate b =
      AdminService.salesChartBucket bucket orders startDate b := by
  have hmatch : AdminService.revenueMatch
      (orders.filter (fun x => decide (x.status ≠ OrderStatus.cancelled)))
      startDate = AdminService.revenueMatch orders startDate := by
    rw [AdminService.revenueMatch, AdminService.revenueMatch, List.filter_filter]
    congr 1
    funext x
    by_cases h1 : startDate ≤ x.createdAt <;>
      by_cases h2 : x.status = OrderStatus.cancelled <;> simp [h1, h2]
  have hcons := revenueMatch_cons_cancelled orders startDate o hc
  refine ⟨?_, ?_, ?_, ?_⟩
  · rw [AdminService.totalRevenue, AdminService.totalRevenue, hmatch]
  · rw [AdminService.totalRevenue, AdminService.totalRevenue, hcons]
  · rw [AdminService.averageOrderValue, AdminService.averageOrderValue,
      AdminService.totalRevenue, AdminService.totalRevenue, hcons]
  · rw [AdminService.salesChartBucket, AdminService.salesChartBucket, hcons]

/-- C10 witness: prepending a cancelled order to a one-order collection
leaves the reported total revenue unchanged. -/
theorem c10_revenue_excludes_cancelled_witness :
    AdminService.totalRevenue
      ({ baseOrder with status := OrderStatus.cancelled } :: [baseOrder]) 0 =
      AdminService.totalRevenue [baseOrder] 0 :=
  (c10_revenue_excludes_cancelled [baseOrder] 0 (fun _ => 0) 0
    { baseOrder with status := OrderStatus.cancelled } rfl).2.1

end AiBuyTech
